import Mathlib

/-!
Verification development for the `ators` command-line symbolicator
(crates `ators` and `atorsl`).  The Rust sources are shallowly embedded:
machine integers (`u64`, `u16`, `i64`) become `Nat`/`Int` with explicit
`% 2 ^ w` where wrap-around matters, fallible Rust code returns
`Except`/`Option`, and the generally recursive attribute-reference
chasing is indexed by an explicit fuel parameter (`Error.noFuel` marks
fuel exhaustion, i.e. a computation of the Rust program that has not
yet terminated at that recursion depth).

External collaborators (the `gimli` DWARF decoder, the `object` Mach-O
parser, the demangler) are represented by first-order data: a DWARF
unit is a list of DIEs in depth-first pre-order together with the
`next_dfs` depth deltas, attribute-to-string resolution yields the
stored string directly, and the demangler is the identity function.
-/

namespace Ators

/-- Size of the `u64` value space. -/
def U64 : Nat := 2 ^ 64

/-- Size of the `u16` value space. -/
def U16 : Nat := 2 ^ 16

/-- Hexadecimal digit character (lowercase), as produced by Rust's `{:x}`. -/
def hexDigitChar (n : Nat) : Char :=
  if n = 0 then '0' else if n = 1 then '1' else if n = 2 then '2'
  else if n = 3 then '3' else if n = 4 then '4' else if n = 5 then '5'
  else if n = 6 then '6' else if n = 7 then '7' else if n = 8 then '8'
  else if n = 9 then '9' else if n = 10 then 'a' else if n = 11 then 'b'
  else if n = 12 then 'c' else if n = 13 then 'd' else if n = 14 then 'e'
  else 'f'

/-- Display of an `Addr` (`impl fmt::Display for Addr`, `addr.rs`): Rust's
`{:#018x}` on a `u64`, i.e. `0x` followed by exactly 16 lowercase hex
digits. -/
def addrDisplay (n : Nat) : String :=
  "0x" ++ String.mk ((List.range 16).map fun i => hexDigitChar (n / 16 ^ (15 - i) % 16))

/-- Value of a single character as a digit in the given radix, as accepted
by Rust's `char::to_digit` used by integer parsing: `0`-`9`, then
letters (either case) for values 10 and up. -/
def digitVal (radix : Nat) (c : Char) : Option Nat :=
  let v : Option Nat :=
    if '0' ≤ c ∧ c ≤ '9' then some (c.toNat - '0'.toNat)
    else if 'a' ≤ c ∧ c ≤ 'z' then some (c.toNat - 'a'.toNat + 10)
    else if 'A' ≤ c ∧ c ≤ 'Z' then some (c.toNat - 'A'.toNat + 10)
    else none
  v.bind fun d => if d < radix then some d else none

/-- Digit loop of Rust's `u64::from_str_radix`: each step multiplies by the
radix and adds the digit with checked arithmetic, failing on a `u64`
overflow or on an invalid digit. -/
def parseU64Digits (radix : Nat) : List Char → Nat → Option Nat
  | [], acc => some acc
  | c :: rest, acc =>
    match digitVal radix c with
    | none => none
    | some d =>
      let v := acc * radix + d
      if v < U64 then parseU64Digits radix rest v else none

/-- Rust's `u64::from_str_radix` (and, at radix 10, `u64`'s `FromStr`): an
optional leading `+`, then at least one digit, rejecting overflow. -/
def parseU64 (radix : Nat) (s : List Char) : Option Nat :=
  let s' := match s with
    | c :: rest => if c = '+' then rest else c :: rest
    | [] => []
  if s' = [] then none else parseU64Digits radix s' 0

/-- Rust's `str::trim_start_matches("0x")`: strips every repetition of the
leading `0x` prefix. -/
def trim0x : List Char → List Char
  | c1 :: c2 :: rest => if c1 = '0' ∧ c2 = 'x' then trim0x rest else c1 :: c2 :: rest
  | s => s

/-- The `Addr` newtype (`addr.rs`): a wrapped `u64`.  Operations keep the
value in `[0, 2^64)`. -/
structure Addr where
  val : Nat
deriving DecidableEq, Repr

/-- Parsing of `Addr` (`impl FromStr for Addr`, `addr.rs`): decimal first,
then hexadecimal after stripping every leading `0x`. -/
def Addr.fromStr (s : String) : Option Addr :=
  match parseU64 10 s.data with
  | some v => some ⟨v⟩
  | none => (parseU64 16 (trim0x s.data)).map Addr.mk

/-- Addition of `Addr` values (`binops!` in `addr.rs`): the plain `u64` `+`
on the wrapped values.  Rust's release build wraps modulo `2^64` (the
debug build would panic); no error value is ever produced. -/
def Addr.add (a b : Addr) : Addr :=
  ⟨(a.val + b.val) % U64⟩

/-- Subtraction of `Addr` values (`binops!` in `addr.rs`): the plain `u64`
`-` on the wrapped values.  Rust's release build wraps modulo `2^64`
(the debug build would panic); no error value is ever produced. -/
def Addr.sub (a b : Addr) : Addr :=
  ⟨(a.val + U64 - b.val % U64) % U64⟩

/-- Reference value of a string of hexadecimal digits, most significant
first (spec-side definition used to state what `from_str` returns). -/
def hexValue (s : List Char) : Nat :=
  s.foldl (fun acc c => acc * 16 + ((digitVal 16 c).getD 0)) 0

/-- Test for an ASCII hexadecimal digit character. -/
def isHexDigitChar (c : Char) : Bool :=
  ('0' ≤ c ∧ c ≤ '9') ∨ ('a' ≤ c ∧ c ≤ 'f') ∨ ('A' ≤ c ∧ c ≤ 'F')

/-- Character-list prefix test (Rust's `str::starts_with` for the paths
handled here). -/
def strStartsWith (s p : String) : Bool :=
  p.data.isPrefixOf s.data

/-- Character-list suffix test (Rust's `str::ends_with`). -/
def strEndsWith (s p : String) : Bool :=
  p.data.reverse.isPrefixOf s.data.reverse

/-- Worker of `splitOnChar`, accumulating the current chunk's characters
in reverse. -/
def splitOnCharGo (sep : Char) : List Char → List Char → List String
  | [], acc => [String.mk acc.reverse]
  | c :: rest, acc =>
    if c = sep then String.mk acc.reverse :: splitOnCharGo sep rest []
    else splitOnCharGo sep rest (c :: acc)

/-- Division of a string at every occurrence of a separator character. -/
def splitOnChar (sep : Char) (s : String) : List String :=
  splitOnCharGo sep s.data []

/-! ## DWARF data model

The resolver (`atorsl/src/symbolicator.rs`) works through `gimli` types.
They are embedded as first-order data: an `Entry` is a DIE with its tag,
attribute list and `has_children` flag; a unit carries its `comp_dir`,
its line program (header plus rows) and its DIE list in depth-first
pre-order paired with the depth deltas that `EntriesCursor::next_dfs`
reports; attribute-to-string resolution (`Dwarf::attr_string`) returns
the stored string directly. -/

/-- Errors of the resolver.  The variants and payloads follow the uses in
`symbolicator.rs`; `Gimli` stands for any error bubbled up from the
DWARF decoder, and `noFuel` marks exhaustion of the fuel that indexes
the embedding of the unbounded Rust recursion (i.e. a run of the Rust
code that has not terminated within that recursion depth). -/
inductive Error where
  | AddrNotFound (a : Nat)
  | AddrDebugInfoOffsetMissing (a : Nat)
  | AddrSymbolMissing (a : Nat)
  | AddrLineInfoMissing (a : Nat)
  | AddrFileInfoMissing (a : Nat)
  | AddrDebugInfoRefOffsetOutOfBounds (a : Nat)
  | AddrDebugInfoRefOffsetNofFound (a : Nat)
  | CompUnitDirMissing (a : Nat)
  | CompUnitLineProgramMissing (a : Nat)
  | Gimli
  | noFuel
deriving DecidableEq, Repr

/-- DWARF attribute names used by the resolver. -/
inductive DwAt where
  | lowPc | highPc | ranges
  | name | linkageName | abstractOrigin
  | callFile | callLine | callColumn
  | declFile | declLine | declColumn
  | artificial
deriving DecidableEq, Repr

/-- DIE tags the resolver distinguishes. -/
inductive DwTag where
  | subprogram | inlinedSubroutine | other
deriving DecidableEq, Repr

/-- Attribute values (`gimli::AttributeValue`), restricted to the forms the
resolver inspects. -/
inductive AttrValue where
  | str (s : String)
  | fileIndex (i : Nat)
  | unitRef (o : Nat)
  | debugInfoRef (o : Nat)
  | udata (n : Nat)
  | addrV (a : Nat)
  | flag (b : Bool)
  | rangeListsRef (o : Nat)
deriving DecidableEq, Repr

/-- A source location (`SourceLoc` of `atorsl`): file path, `u16` line and
`u16` column. -/
structure SourceLoc where
  file : String
  line : Nat
  col : Nat
deriving DecidableEq, Repr

/-- The location half of a `Symbol` (`itertools::Either<Option<SourceLoc>,
Addr>`): a symbolic location, or an offset into the object's symbol
map. -/
inductive SymLoc where
  | symbolic (l : Option SourceLoc)
  | objectOffset (off : Nat)
deriving DecidableEq, Repr

/-- A resolved symbol (`Symbol` of `atorsl`). -/
structure Symbol where
  addr : Nat
  name : String
  loc : SymLoc
deriving DecidableEq, Repr

/-- A DIE (`gimli::DebuggingInformationEntry`). -/
structure Entry where
  tag : DwTag
  attrs : List (DwAt × AttrValue)
  hasChildren : Bool
deriving DecidableEq, Repr

/-- Attribute lookup on a DIE (`entry.attr_value(name)`, always `Ok` in the
model): the first binding of the name, if any. -/
def Entry.attr (e : Entry) (a : DwAt) : Option AttrValue :=
  (e.attrs.find? fun p => p.1 = a).map (·.2)

/-- The `u16_value()` accessor of `gimli::AttributeValue`: the attribute's
integer value when it fits in a `u16`. -/
def AttrValue.u16Value : AttrValue → Option Nat
  | .udata n => if n < U16 then some n else none
  | _ => none

/-- A file entry of a line-program header (`gimli::FileEntry`):
`dirIndex` is `directory_index()`, `dir` is the result of
`directory(header)` resolved to a string, `pathName` is `path_name()`
resolved to a string. -/
structure FileEntry where
  dirIndex : Nat
  dir : Option String
  pathName : String
deriving DecidableEq, Repr

/-- Column type of a line-program row (`gimli::ColumnType`). -/
inductive ColumnType where
  | leftEdge
  | column (c : Nat)
deriving DecidableEq, Repr

/-- A line-program row (`gimli::LineRow`): its address, the file index
(resolved through the header's file table), the line (`NonZeroU64`,
so `none` when absent) and the column. -/
structure LineRow where
  address : Nat
  fileIdx : Nat
  line : Option Nat
  col : ColumnType
deriving DecidableEq, Repr

/-- A line-program header (`gimli::LineProgramHeader`): its file table,
indexed by the rows' file indices. -/
structure LineProgramHeader where
  files : List FileEntry
deriving DecidableEq, Repr

/-- A compilation unit (`gimli::Unit`): `comp_dir`, the line program
(header and the rows its one-shot row iterator yields, in order), the
DIE list in depth-first pre-order paired with the `next_dfs` depth
deltas, the offset-to-DIE map backing `unit.entry(offset)`, and the
section offset and byte size of the unit's header (for
`UnitSectionOffset::to_unit_offset` and the header scan of
`unit_from_offset`). -/
structure UnitM where
  compDir : Option String
  lineProgram : Option (LineProgramHeader × List LineRow)
  dies : List (Int × Entry)
  entryMap : List (Nat × Entry)
  sectionOffset : Nat
  size : Nat
deriving DecidableEq, Repr

/-- An arange header of `.debug_aranges` (`gimli::ArangeHeader`): its
entries as `(address, length)` pairs and its `debug_info_offset`. -/
structure ArangeHeader where
  entries : List (Nat × Nat)
  dioff : Nat
deriving DecidableEq, Repr

/-- The loaded DWARF sections (`gimli::Dwarf`): the units in section
order, the arange headers, and the range lists of `.debug_ranges` /
`.debug_rnglists` keyed by offset. -/
structure DwarfM where
  units : List UnitM
  aranges : List ArangeHeader
  rangeLists : List (Nat × List (Nat × Nat))
deriving DecidableEq, Repr

/-- Lookup of a unit-local DIE offset (`unit.entry(offset)`). -/
def UnitM.entry (u : UnitM) (o : Nat) : Option Entry :=
  (u.entryMap.find? fun p => p.1 = o).map (·.2)

/-- Lookup of a range list by offset (`dwarf.ranges(unit, offset)`,
with `ranges_offset_from_raw` the identity here). -/
def DwarfM.rangeList (d : DwarfM) (o : Nat) : Option (List (Nat × Nat)) :=
  (d.rangeLists.find? fun p => p.1 = o).map (·.2)

/-! ## Resolver (`atorsl/src/symbolicator.rs`) -/

/-- Modelled from the spec: the demangler is an external collaborator
"treated as a string→string function" (spec §1); its behaviour is not
part of this repository's sources, and no claim depends on it, so it is
embedded as the identity. -/
def demangle (s : String) : String := s

/-- Joining of paths (`std::path::PathBuf::join` for the string paths the
resolver builds): an absolute right side replaces the left side, an
empty left side contributes nothing, otherwise the two are joined with
a `/` separator. -/
def pathJoin (d n : String) : String :=
  if strStartsWith n "/" then n
  else if d = "" then n
  else if strEndsWith d "/" then d ++ n
  else d ++ "/" ++ n

/-- Containment test of a single arange entry
(the `contains` closure in `debug_info_offset`): checked `address +
length`, failing with a decoder error (`InvalidAddressRange`) on `u64`
overflow, else `address ∈ [address, address + length)`. -/
def arangeContains (addr : Nat) (e : Nat × Nat) : Except Error Bool :=
  if e.1 + e.2 < U64 then .ok (decide (e.1 ≤ addr ∧ addr < e.1 + e.2))
  else .error .Gimli

/-- Short-circuiting `any` over one arange header's entries
(`header.entries().any(contains(addr))` on a fallible iterator). -/
def arangeAny (addr : Nat) : List (Nat × Nat) → Except Error Bool
  | [] => .ok false
  | e :: rest =>
    match arangeContains addr e with
    | .error er => .error er
    | .ok true => .ok true
    | .ok false => arangeAny addr rest

/-- Scan of the arange headers (`debug_info_offset`): the first header one
of whose entries contains the address yields its `debug_info_offset`;
exhaustion fails with `AddrDebugInfoOffsetMissing(addr)`. -/
def debugInfoOffsetGo (addr : Nat) : List ArangeHeader → Except Error Nat
  | [] => .error (.AddrDebugInfoOffsetMissing addr)
  | h :: rest =>
    match arangeAny addr h.entries with
    | .error er => .error er
    | .ok true => .ok h.dioff
    | .ok false => debugInfoOffsetGo addr rest

/-- The `unit_from_addr` method: arange lookup, then construction of the
unit whose header sits at the found `.debug_info` offset (a bad offset
is a decoder error). -/
def unitFromAddr (d : DwarfM) (addr : Nat) : Except Error UnitM :=
  match debugInfoOffsetGo addr d.aranges with
  | .error er => .error er
  | .ok off =>
    match d.units.find? fun u => u.sectionOffset = off with
    | some u => .ok u
    | none => .error .Gimli

/-- The `entry_pc_contains` method: `low` from a `DW_AT_low_pc` of `Addr`
form, `high` either an absolute `Addr` or a `Udata` length added to
`low` with the wrapping `u64` `+` of `Addr`; containment in
`[low, high)`.  `none` when an attribute is missing or ill-formed. -/
def entryPcContains (e : Entry) (addr : Nat) : Option Bool :=
  match e.attr .lowPc with
  | some (.addrV low) =>
    match e.attr .highPc with
    | some (.addrV high) => some (decide (low ≤ addr ∧ addr < high))
    | some (.udata len) => some (decide (low ≤ addr ∧ addr < (low + len) % U64))
    | _ => none
  | _ => none

/-- The `entry_ranges_contain` method: a `DW_AT_ranges` range-list
reference resolved through the dwarf's range lists; containment in any
`[begin, end)`; `none` on a missing attribute or a decoder error. -/
def entryRangesContain (d : DwarfM) (e : Entry) (addr : Nat) : Option Bool :=
  match e.attr .ranges with
  | some (.rangeListsRef off) =>
    match d.rangeList off with
    | some rs => some (rs.any fun r => decide (r.1 ≤ addr ∧ addr < r.2))
    | none => none
  | _ => none

/-- The `entry_contains` method: PC containment, else range containment,
defaulting to `false`. -/
def entryContains (d : DwarfM) (e : Entry) (addr : Nat) : Bool :=
  ((entryPcContains e addr).orElse fun _ => entryRangesContain d e addr).getD false

/-- First present attribute among a preference list
(`[a, b, ...].into_iter().find_map(|dw_at| entry.attr_value(dw_at).ok()?)`). -/
def findMapAttr (e : Entry) : List DwAt → Option AttrValue
  | [] => none
  | a :: rest =>
    match e.attr a with
    | some v => some v
    | none => findMapAttr e rest

/-- First attribute among a preference list that is present and carries a
`u16` value (`.find_map(|name| entry.attr_value(name).ok()??.u16_value())`). -/
def findMapU16 (e : Entry) : List DwAt → Option Nat
  | [] => none
  | a :: rest =>
    match (e.attr a).bind AttrValue.u16Value with
    | some v => some v
    | none => findMapU16 e rest

/-- The header scan of `unit_from_offset`: units in section order with a
one-position lookahead; a header is selected when the offset lies in
`[header.offset, next.offset)`, or, for the final header, when the
offset is strictly beyond its own offset; exhaustion (including an
offset equal to a sole trailing header's offset) fails with
`AddrDebugInfoRefOffsetNofFound(addr)`. -/
def unitFromOffsetGo (addr off : Nat) : List UnitM → Except Error UnitM
  | [] => .error (.AddrDebugInfoRefOffsetNofFound addr)
  | [u] =>
    if off > u.sectionOffset then .ok u
    else .error (.AddrDebugInfoRefOffsetNofFound addr)
  | u :: next :: rest =>
    if u.sectionOffset ≤ off ∧ off < next.sectionOffset then .ok u
    else unitFromOffsetGo addr off (next :: rest)

/-- The `unit_from_offset` method. -/
def unitFromOffset (d : DwarfM) (addr off : Nat) : Except Error UnitM :=
  unitFromOffsetGo addr off d.units

/-- Conversion of a global `.debug_info` offset to a unit-local one
(`UnitSectionOffset::to_unit_offset`): defined only when the offset
falls inside the unit. -/
def toUnitOffset (u : UnitM) (off : Nat) : Option Nat :=
  if u.sectionOffset ≤ off ∧ off < u.sectionOffset + u.size then
    some (off - u.sectionOffset)
  else none

/-- The `entry_symbol` method: the attribute cascade `DW_AT_linkage_name →
DW_AT_abstract_origin → DW_AT_name`; a `UnitRef` re-enters on the
referenced DIE of the same unit, a `DebugInfoRef` re-enters in the unit
located across `.debug_info`; a string-valued attribute resolves; an
empty cascade fails with `AddrSymbolMissing(addr)`.  The Rust recursion
is unbounded; `fuel` indexes its depth, `Error.noFuel` meaning the run
has not terminated within that depth. -/
def entrySymbolF (d : DwarfM) (addr : Nat) : Nat → Entry → UnitM → Except Error String
  | 0, _, _ => .error .noFuel
  | fuel + 1, e, u =>
    match findMapAttr e [.linkageName, .abstractOrigin, .name] with
    | none => .error (.AddrSymbolMissing addr)
    | some (.unitRef off) =>
      match u.entry off with
      | none => .error .Gimli
      | some e' => entrySymbolF d addr fuel e' u
    | some (.debugInfoRef off) =>
      match unitFromOffset d addr off with
      | .error er => .error er
      | .ok nu =>
        match toUnitOffset nu off with
        | none => .error (.AddrDebugInfoRefOffsetOutOfBounds addr)
        | some unitLocal =>
          match nu.entry unitLocal with
          | none => .error .Gimli
          | some e' => entrySymbolF d addr fuel e' nu
    | some (.str s) => .ok s
    | some _ => .error .Gimli

/-- The `entry_source_loc` method: the first present attribute among
`[DW_AT_decl_file, DW_AT_call_file]`; when that is not a file index the
result is `comp_dir / "<compiler-generated>"` with line and column 0;
otherwise the file comes from the header's file table (any failure on
the way yields `none`), the line from the first present `u16` among
`[DW_AT_decl_line, DW_AT_call_line]` (`none` when absent), the column
likewise from `[DW_AT_decl_column, DW_AT_call_column]` defaulting to 0,
and an artificial DIE forces line and column 0. -/
def entrySourceLoc (e : Entry) (path : String) (u : UnitM) : Option SourceLoc :=
  match findMapAttr e [.declFile, .callFile] with
  | some (.fileIndex i) =>
    match u.lineProgram with
    | none => none
    | some (header, _) =>
      match header.files.get? i with
      | none => none
      | some fe =>
        match fe.dir with
        | none => none
        | some dirStr =>
          let isArtificial := e.attr .artificial = some (.flag true)
          match if isArtificial then some 0 else findMapU16 e [.declLine, .callLine] with
          | none => none
          | some line =>
            some { file := pathJoin dirStr fe.pathName
                   line := line
                   col := if isArtificial then 0
                          else (findMapU16 e [.declColumn, .callColumn]).getD 0 }
  | _ =>
    some { file := pathJoin path "<compiler-generated>", line := 0, col := 0 }

/-- The `line_row_file` method: the row's file entry from the header
(failing with `AddrFileInfoMissing(row.address)` when absent); its
directory when present and `directory_index() != 0`, else the default
(empty) path; joined with the file's path name. -/
def lineRowFile (row : LineRow) (header : LineProgramHeader) : Except Error String :=
  match header.files.get? row.fileIdx with
  | none => .error (.AddrFileInfoMissing row.address)
  | some fe =>
    let dir := match fe.dir with
      | some dirStr => if fe.dirIndex ≠ 0 then dirStr else ""
      | none => ""
    .ok (pathJoin dir fe.pathName)

/-- Column conversion of `entry_debug_line`: `LeftEdge → 0`,
`Column(c) → c` as a `u16`. -/
def colVal : ColumnType → Nat
  | .leftEdge => 0
  | .column c => c % U16

/-- One pushed `SourceLoc` of `entry_debug_line`: the cached file, the
row's line as a `u16` defaulting to 0, and its column. -/
def mkRowLoc (f : String) (r : LineRow) : SourceLoc :=
  { file := f, line := (r.line.map (· % U16)).getD 0, col := colVal r.col }

/-- Row loop of `entry_debug_line`: each row whose address equals the
lookup address pushes a `SourceLoc`; the file is computed (via
`line_row_file`) only for the first such row and reused for the rest;
at the end the last pushed `SourceLoc` is returned, or
`AddrLineInfoMissing(addr)` when none was. -/
def entryDebugLineGo (addr : Nat) (header : LineProgramHeader) :
    List LineRow → Option String → List SourceLoc → Except Error SourceLoc
  | [], _, locs =>
    match locs.getLast? with
    | some l => .ok l
    | none => .error (.AddrLineInfoMissing addr)
  | r :: rest, fileAcc, locs =>
    if r.address = addr then
      match fileAcc with
      | some f => entryDebugLineGo addr header rest (some f) (locs ++ [mkRowLoc f r])
      | none =>
        match lineRowFile r header with
        | .error er => .error er
        | .ok f => entryDebugLineGo addr header rest (some f) (locs ++ [mkRowLoc f r])
    else entryDebugLineGo addr header rest fileAcc locs

/-- The `entry_debug_line` method, consuming the unit's (single-pass) row
iterator. -/
def entryDebugLine (addr : Nat) (header : LineProgramHeader) (rows : List LineRow) :
    Except Error SourceLoc :=
  entryDebugLineGo addr header rows none []

/-- First loop of `atos_dwarf`: depth-first traversal until a DIE with tag
`DW_TAG_subprogram` contains the address, failing with
`AddrNotFound(addr)` on exhaustion.  Returns the DIE and the rest of
the cursor's stream. -/
def findSubprogram (d : DwarfM) (addr : Nat) :
    List (Int × Entry) → Except Error (Entry × List (Int × Entry))
  | [] => .error (.AddrNotFound addr)
  | (_, e) :: rest =>
    if e.tag = .subprogram ∧ entryContains d e addr = true then .ok (e, rest)
    else findSubprogram d addr rest

/-- Inline loop of `atos_dwarf`: continue the DFS with a depth counter
(initially 0, advanced by each `next_dfs` step), stopping when the
stream ends or the counter returns to ≤ 0; every contained
`DW_TAG_inlined_subroutine` inserts, at the front of the accumulator, a
symbol named after the current `parent` and located at the child's own
source location, and becomes the new `parent`.  Returns the last
matched child (or the initial parent) and the accumulated symbols. -/
def inlineLoop (d : DwarfM) (addr fuel : Nat) (compDir : String) (u : UnitM) :
    List (Int × Entry) → Int → Entry → List Symbol → Except Error (Entry × List Symbol)
  | [], _, parent, syms => .ok (parent, syms)
  | (step, child) :: rest, depth, parent, syms =>
    let depth' := depth + step
    if depth' ≤ 0 then .ok (parent, syms)
    else if child.tag = .inlinedSubroutine ∧ entryContains d child addr = true then
      match entrySymbolF d addr fuel parent u with
      | .error er => .error er
      | .ok s =>
        inlineLoop d addr fuel compDir u rest depth' child
          ({ addr := addr, name := demangle s,
             loc := .symbolic (entrySourceLoc child compDir u) } :: syms)
    else inlineLoop d addr fuel compDir u rest depth' parent syms

/-- The `atos_dwarf` entry point: locate the unit by address, require its
`comp_dir` and line program, find the enclosing subprogram by DFS;
with inlining requested and children present, run the inline loop and
prepend the innermost frame (named after the last matched child,
located at the line-program row); otherwise emit the single subprogram
symbol located at the line-program row. -/
def atosDwarf (fuel : Nat) (d : DwarfM) (addr : Nat) (includeInlined : Bool) :
    Except Error (List Symbol) :=
  match unitFromAddr d addr with
  | .error er => .error er
  | .ok u =>
    match u.compDir with
    | none => .error (.CompUnitDirMissing addr)
    | some compDir =>
      match u.lineProgram with
      | none => .error (.CompUnitLineProgramMissing addr)
      | some (header, rows) =>
        match findSubprogram d addr u.dies with
        | .error er => .error er
        | .ok (sub, rest) =>
          if includeInlined = true ∧ sub.hasChildren = true then
            match inlineLoop d addr fuel compDir u rest 0 sub [] with
            | .error er => .error er
            | .ok (lastChild, syms) =>
              match entrySymbolF d addr fuel lastChild u with
              | .error er => .error er
              | .ok s =>
                match entryDebugLine addr header rows with
                | .error er => .error er
                | .ok l =>
                  .ok ({ addr := addr, name := demangle s,
                         loc := .symbolic (some l) } :: syms)
          else
            match entrySymbolF d addr fuel sub u with
            | .error er => .error er
            | .ok s =>
              match entryDebugLine addr header rows with
              | .error er => .error er
              | .ok l =>
                .ok [{ addr := addr, name := demangle s, loc := .symbolic (some l) }]

/-! ## Symbol-map fallback (`atos_obj`) and dispatcher (`ators/src/main.rs`) -/

/-- The object's symbol map (`object::SymbolMap`), as `(address, name)`
pairs; `get` returns the entry with the greatest address ≤ the query. -/
def symbolMapGet (m : List (Nat × String)) (a : Nat) : Option (Nat × String) :=
  m.foldl
    (fun acc e =>
      if e.1 ≤ a then
        match acc with
        | none => some e
        | some b => if b.1 ≤ e.1 then some e else some b
      else acc)
    none

/-- The `atos_obj` fallback: a greatest-≤ symbol-map lookup; a hit emits
one symbol whose location is the offset of the query past the entry's
address; a miss fails with `AddrNotFound(addr)`. -/
def atosObj (obj : List (Nat × String)) (addr : Nat) : Except Error (List Symbol) :=
  match symbolMapGet obj addr with
  | none => .error (.AddrNotFound addr)
  | some sym =>
    .ok [{ addr := sym.1, name := demangle sym.2, loc := .objectOffset (addr - sym.1) }]

/-- Display strings of the resolver errors (`thiserror` messages).  The
`AddrNotFound` text is the one recorded in `atorsl/src/error.rs`; the
others are modelled from the spec's error taxonomy (§7), the enum
carrying them being one of the repository parts not present under
`src/`.  `noFuel` never reaches the dispatcher (it marks a
non-terminating run). -/
def errMessage : Error → String
  | .AddrNotFound a => "Address not found (" ++ addrDisplay a ++ ")"
  | .AddrDebugInfoOffsetMissing a => "No debug offset in address (" ++ addrDisplay a ++ ")"
  | .AddrSymbolMissing a => "Address has no symbols (" ++ addrDisplay a ++ ")"
  | .AddrLineInfoMissing a => "Address has no line info (" ++ addrDisplay a ++ ")"
  | .AddrFileInfoMissing a => "Address has no file info (" ++ addrDisplay a ++ ")"
  | .AddrDebugInfoRefOffsetOutOfBounds a =>
    "Debug info ref offset out of bounds (" ++ addrDisplay a ++ ")"
  | .AddrDebugInfoRefOffsetNofFound a =>
    "Debug info ref offset not found (" ++ addrDisplay a ++ ")"
  | .CompUnitDirMissing a => "Compilation unit has no dir (" ++ addrDisplay a ++ ")"
  | .CompUnitLineProgramMissing a =>
    "Compilation unit has no line program (" ++ addrDisplay a ++ ")"
  | .Gimli => "Error reading DWARF"
  | .noFuel => "nonterminating"

/-- Modelled from the spec: the `Context` type lives in
`ators/src/context.rs`, which is not under `src/`; per spec §3 it
bundles the object path, the inlining and full-path switches and the
inline-chain delimiter (the fields `main.rs` reads). -/
structure Ctx where
  objPath : String
  includeInlined : Bool
  showFullPath : Bool
  delimiter : String
deriving DecidableEq, Repr

/-- The `lossy_file_name` helper of `main.rs` (`Path::file_name`,
lossily): the component after the last `/`. -/
def lossyFileName (p : String) : String :=
  ((splitOnChar '/' p).getLast?).getD ""

/-- The `format` function of `main.rs`: `NAME (in IMAGE) (FILE:LINE)` for
a symbolic location (base-named file unless `-fullPath`), `NAME (in
IMAGE) (?)` for a symbol without one, and `NAME (in IMAGE) + OFFSET`
for a symbol-map hit. -/
def formatSymbol (ctx : Ctx) (s : Symbol) : String :=
  match s.loc with
  | .symbolic (some l) =>
    s.name ++ " (in " ++ lossyFileName ctx.objPath ++ ") (" ++
      (if ctx.showFullPath then l.file else lossyFileName l.file) ++ ":" ++
      toString l.line ++ ")"
  | .symbolic none =>
    s.name ++ " (in " ++ lossyFileName ctx.objPath ++ ") (?)"
  | .objectOffset off =>
    s.name ++ " (in " ++ lossyFileName ctx.objPath ++ ") + " ++ toString off

/-- Per-address resolution of the dispatcher (`symbolicate` in
`main.rs`): DWARF resolution; on `AddrNotFound` or
`AddrDebugInfoOffsetMissing` (and only those) the symbol-map fallback
runs on the error's address; every other outcome passes through. -/
def perAddrResult (fuel : Nat) (d : DwarfM) (obj : List (Nat × String))
    (addr : Nat) (includeInlined : Bool) : Except Error (List Symbol) :=
  match atosDwarf fuel d addr includeInlined with
  | .error (.AddrNotFound a) => atosObj obj a
  | .error (.AddrDebugInfoOffsetMissing a) => atosObj obj a
  | r => r

/-- Per-address output line of the dispatcher: the formatted symbols
joined with newlines; a final `AddrNotFound` prints the bare formatted
address; any other error prints its message verbatim. -/
def perAddrLine (fuel : Nat) (d : DwarfM) (obj : List (Nat × String))
    (ctx : Ctx) (addr : Nat) : String :=
  match perAddrResult fuel d obj addr ctx.includeInlined with
  | .ok syms => String.intercalate "\n" (syms.map (formatSymbol ctx))
  | .error (.AddrNotFound a) => addrDisplay a
  | .error er => errMessage er

/-- The `symbolicate` function of `main.rs`: one line (group) per input
address in input order; with inlining on, the delimiter is interspersed
between addresses and appended once at the end. -/
def symbolicateM (fuel : Nat) (d : DwarfM) (obj : List (Nat × String))
    (ctx : Ctx) (addrs : List Nat) : List String :=
  let lines := addrs.map (perAddrLine fuel d obj ctx)
  if ctx.includeInlined = true then
    lines.intersperse ctx.delimiter ++ [ctx.delimiter]
  else lines

/-! ## Address translator (`compute_addrs` in `ators/src/main.rs`) -/

/-- The base mode (`Loc` in `ators`): a load address, a slide, or
offset mode. -/
inductive Loc where
  | load (a : Nat)
  | slide (a : Nat)
  | offset
deriving DecidableEq, Repr

/-- Rust's `u64 as i64` cast: a wrapping reinterpretation into
`[-2^63, 2^63)`. -/
def toI64 (n : Nat) : Int :=
  if n % U64 < 2 ^ 63 then (n % U64 : Int) else (n % U64 : Int) - U64

/-- Rust's release-mode `i64` negation: wrapping, so `-2^63` stays
`-2^63`. -/
def negWrapI64 (x : Int) : Int :=
  if x = -(2 ^ 63) then x else -x

/-- Rust's `u64::checked_sub`. -/
def checkedSub (a b : Nat) : Option Nat :=
  if b ≤ a then some (a - b) else none

/-- Rust's `u64::checked_add_signed`. -/
def checkedAddSigned (a : Nat) (d : Int) : Option Nat :=
  if 0 ≤ (a : Int) + d ∧ (a : Int) + d < (U64 : Int) then some ((a : Int) + d).toNat
  else none

/-- The signed offset `compute_addrs` builds: for `Load(l)`,
`-((l.checked_sub(vmaddr))? as i64)` (failing with the
"Invalid load address" context when `l < vmaddr`); for `Slide(s)`,
`-(s as i64)`; for `Offset`, `vmaddr as i64`. -/
def offsetAddr (vmaddr : Nat) (base : Loc) : Except String Int :=
  match base with
  | .load l =>
    match checkedSub l vmaddr with
    | some dv => .ok (negWrapI64 (toI64 dv))
    | none => .error ("Invalid load address: " ++ addrDisplay l)
  | .slide s => .ok (negWrapI64 (toI64 s))
  | .offset => .ok (toI64 vmaddr)

/-- Per-address translation of `compute_addrs`:
`addr.checked_add_signed(offset)` with the "Invalid address" context on
`None`. -/
def translateCode (δ : Int) (a : Nat) : Except String Nat :=
  match checkedAddSigned a δ with
  | some r => .ok r
  | none => .error ("Invalid address: " ++ addrDisplay a)

/-- The `compute_addrs` function (its translation half; reading addresses
from a file or the command line is elided): the signed offset is
computed once, then applied to every address in order, the first
failure aborting. -/
def computeAddrs (vmaddr : Nat) (base : Loc) (addrs : List Nat) : Except String (List Nat) :=
  match offsetAddr vmaddr base with
  | .error e => .error e
  | .ok δ => addrs.mapM (translateCode δ)

/-- Spec-side statement of §4.3's translation: the exact integer offset
`δ` per base mode. -/
def deltaSpec (vmaddr : Nat) (base : Loc) : Int :=
  match base with
  | .load l => (vmaddr : Int) - l
  | .slide s => -(s : Int)
  | .offset => (vmaddr : Int)

/-- Spec-side statement of §4.3's per-address translation: checked signed
addition of the exact `δ`, any overflow or underflow surfacing as the
invalid-address error. -/
def translateSpec (δ : Int) (a : Nat) : Except String Nat :=
  if 0 ≤ (a : Int) + δ ∧ (a : Int) + δ < (U64 : Int) then .ok (((a : Int) + δ).toNat)
  else .error ("Invalid address: " ++ addrDisplay a)

/-! ## Concrete instances

The spec's inline-expansion scenario (§8 scenario 5): subprogram `foo`
covering `[0x100001000, 0x100001100)` whose line program maps
`0x100001020` to `/src/a.c:42`, inlining `bar` (call site `a.c:100`)
which inlines `baz` (call site `a.c:200`). -/

/-- Compile-unit root DIE of the scenario unit. -/
def cuE : Entry := { tag := .other, attrs := [], hasChildren := true }

/-- The scenario's concrete subprogram `foo`. -/
def fooE : Entry :=
  { tag := .subprogram
    attrs := [(.lowPc, .addrV 0x100001000), (.highPc, .udata 0x100), (.name, .str "foo")]
    hasChildren := true }

/-- The scenario's outer inlined subroutine `bar`, with call site
`a.c:100`. -/
def barE : Entry :=
  { tag := .inlinedSubroutine
    attrs := [(.lowPc, .addrV 0x100001010), (.highPc, .udata 0x20),
              (.callFile, .fileIndex 1), (.callLine, .udata 100), (.name, .str "bar")]
    hasChildren := true }

/-- The scenario's inner inlined subroutine `baz`, with call site
`a.c:200`. -/
def bazE : Entry :=
  { tag := .inlinedSubroutine
    attrs := [(.lowPc, .addrV 0x100001020), (.highPc, .udata 0x8),
              (.callFile, .fileIndex 1), (.callLine, .udata 200), (.name, .str "baz")]
    hasChildren := false }

/-- Line-program header of the scenario unit: file index 1 is `a.c` under
directory `/src` (directory index 1). -/
def hdr1 : LineProgramHeader :=
  ⟨[⟨0, none, ""⟩, ⟨1, some "/src", "a.c"⟩]⟩

/-- Line-program rows of the scenario unit: `0x100001020 → /src/a.c:42`. -/
def rows1 : List LineRow := [⟨0x100001020, 1, some 42, .leftEdge⟩]

/-- The scenario's compilation unit. -/
def unit1 : UnitM :=
  { compDir := some "/src"
    lineProgram := some (hdr1, rows1)
    dies := [(0, cuE), (1, fooE), (1, barE), (1, bazE)]
    entryMap := []
    sectionOffset := 0
    size := 0x1000 }

/-- The scenario's DWARF sections. -/
def scenD : DwarfM :=
  { units := [unit1]
    aranges := [⟨[(0x100001000, 0x100)], 0⟩]
    rangeLists := [] }

/-- The scenario's invocation context: `-o /tmp/app -i -fullPath`. -/
def ctx1 : Ctx :=
  { objPath := "/tmp/app", includeInlined := true, showFullPath := true, delimiter := "--" }

/-- An inlined DIE carrying both `DW_AT_decl_*` and `DW_AT_call_*`
attributes, with distinct files and lines. -/
def declCallE : Entry :=
  { tag := .inlinedSubroutine
    attrs := [(.declFile, .fileIndex 1), (.declLine, .udata 7),
              (.callFile, .fileIndex 2), (.callLine, .udata 9)]
    hasChildren := false }

/-- An artificial inlined DIE that nevertheless carries a file attribute. -/
def artFileE : Entry :=
  { tag := .inlinedSubroutine
    attrs := [(.callFile, .fileIndex 2), (.callLine, .udata 9), (.artificial, .flag true)]
    hasChildren := false }

/-- Header with two distinct file entries (`/src/decl.c` and
`/src/call.c`). -/
def hdr4 : LineProgramHeader :=
  ⟨[⟨0, none, ""⟩, ⟨1, some "/src", "decl.c"⟩, ⟨2, some "/src", "call.c"⟩]⟩

/-- Unit wrapping `hdr4`. -/
def unit4 : UnitM :=
  { compDir := some "/src", lineProgram := some (hdr4, []), dies := []
    entryMap := [], sectionOffset := 0, size := 0 }

/-- Header whose file 1 is `/src/a.c` and file 2 is `/src/b.c`. -/
def hdr5 : LineProgramHeader :=
  ⟨[⟨0, none, ""⟩, ⟨1, some "/src", "a.c"⟩, ⟨2, some "/src", "b.c"⟩]⟩

/-- Two rows at the same address with different files: the first in
`a.c` line 1, the second in `b.c` line 2. -/
def rows5 : List LineRow :=
  [⟨7, 1, some 1, .column 4⟩, ⟨7, 2, some 2, .leftEdge⟩]

/-- A subprogram for the comp-dir scenario. -/
def subE6 : Entry :=
  { tag := .subprogram
    attrs := [(.lowPc, .addrV 0x40), (.highPc, .udata 0x10), (.name, .str "f")]
    hasChildren := false }

/-- Header whose file 1 has `directory_index` 0 (no directory), bare name
`a.c`. -/
def hdr6 : LineProgramHeader :=
  ⟨[⟨0, none, ""⟩, ⟨0, none, "a.c"⟩]⟩

/-- Unit providing `DW_AT_comp_dir = /src` while its line program's file 1
sits at directory index 0. -/
def unit6 : UnitM :=
  { compDir := some "/src"
    lineProgram := some (hdr6, [⟨0x40, 1, some 3, .leftEdge⟩])
    dies := [(0, cuE), (1, subE6)]
    entryMap := [], sectionOffset := 0, size := 64 }

/-- DWARF sections for the comp-dir scenario. -/
def scenD6 : DwarfM :=
  { units := [unit6], aranges := [⟨[(0x40, 0x10)], 0⟩], rangeLists := [] }

/-- A DIE whose `DW_AT_abstract_origin` is a `UnitRef` to its own offset:
a one-step reference cycle. -/
def cycEntry : Entry :=
  { tag := .other, attrs := [(.abstractOrigin, .unitRef 0)], hasChildren := false }

/-- Unit mapping offset 0 to the self-referential DIE. -/
def cycUnit : UnitM :=
  { compDir := none, lineProgram := none, dies := []
    entryMap := [(0, cycEntry)], sectionOffset := 0, size := 1 }

/-- DWARF sections holding the cyclic unit. -/
def cycD : DwarfM :=
  { units := [cycUnit], aranges := [], rangeLists := [] }

/-- A DIE with just a direct `DW_AT_name` string. -/
def namedE (s : String) : Entry :=
  { tag := .other, attrs := [(.name, .str s)], hasChildren := false }

/-- A DIE with no name-cascade attribute at all. -/
def bareE : Entry :=
  { tag := .other, attrs := [], hasChildren := false }

/-- Divergence of the name cascade on an input: at every recursion depth
the run is still unfinished (the fuel-indexed embedding never reaches a
result), i.e. the Rust recursion does not terminate there. -/
def entrySymbolDiverges (d : DwarfM) (a : Nat) (e : Entry) (u : UnitM) : Prop :=
  ∀ fuel, entrySymbolF d a fuel e u = .error .noFuel

/-- Division of an output group into its printed lines, splitting at
newlines (what `println!` of a joined group makes visible). -/
def splitLines (s : String) : List String :=
  splitOnChar '\n' s

/-- Match test of a line-program row against the lookup address
(`line_row.address() == addr`). -/
def rowMatches (addr : Nat) : LineRow → Bool :=
  fun r => decide (r.address = addr)

/-- Pairing of a DIE with the output `Symbol` built from it: the symbol
carries the lookup address and the demangled name that the
`entry_symbol` cascade resolves for that DIE. -/
def framePaired (fuel : Nat) (d : DwarfM) (addr : Nat) (u : UnitM) (e : Entry) (y : Symbol) :
    Prop :=
  y.addr = addr ∧ ∃ s, entrySymbolF d addr fuel e u = .ok s ∧ y.name = demangle s

/-- Concrete output of the inline-expansion scenario: the three frames
`baz`, `bar`, `foo`, innermost first. -/
def scenSyms : List Symbol :=
  [⟨0x100001020, "baz", .symbolic (some ⟨"/src/a.c", 42, 0⟩)⟩,
   ⟨0x100001020, "bar", .symbolic (some ⟨"/src/a.c", 200, 0⟩)⟩,
   ⟨0x100001020, "foo", .symbolic (some ⟨"/src/a.c", 100, 0⟩)⟩]

/-- DWARF sections with no aranges at all: every lookup misses with
`AddrDebugInfoOffsetMissing`. -/
def dEmpty : DwarfM := ⟨[], [], []⟩

/-- A minimal non-inlining context. -/
def ctxN : Ctx := ⟨"/tmp/app", false, false, "-"⟩

/-! ## Claims -/

/-- C1, counterexample.  On the spec's own inline-expansion scenario the
printed lines are not the claimed ones: the code pairs each frame's
name with the call site of its inlined *child* (and the innermost frame
with the line-program row), so `baz` prints with `/src/a.c:42`, `bar`
with `/src/a.c:200` and `foo` with `/src/a.c:100` — not `baz:200`,
`bar:100`, `foo:42` as claimed. -/
theorem c1_counterexample :
    ((symbolicateM 16 scenD [] ctx1 [0x100001020]).flatMap splitLines)
      = ["baz (in app) (/src/a.c:42)", "bar (in app) (/src/a.c:200)",
         "foo (in app) (/src/a.c:100)", "--"]
    ∧ ((symbolicateM 16 scenD [] ctx1 [0x100001020]).flatMap splitLines)
      ≠ ["baz (in app) (/src/a.c:200)", "bar (in app) (/src/a.c:100)",
         "foo (in app) (/src/a.c:42)", "--"] := by
  decide

/-- C1, amended.  Symbolicating the scenario address with inline expansion
and full paths prints three frame lines followed by the delimiter line,
in innermost-first order, where the innermost frame `baz` carries the
line-program location `/src/a.c:42`, and every other frame carries the
call-site location of the frame listed above it (`bar` carries `baz`'s
call site `/src/a.c:200`, `foo` carries `bar`'s call site
`/src/a.c:100`). -/
theorem c1_theorem :
    ((symbolicateM 16 scenD [] ctx1 [0x100001020]).flatMap splitLines)
      = ["baz (in app) (/src/a.c:42)", "bar (in app) (/src/a.c:200)",
         "foo (in app) (/src/a.c:100)", "--"] := by
  decide

/-- C8, counterexample.  `Addr` addition and subtraction are the plain
`u64` operators: on overflow the sum wraps modulo `2^64` (no `Overflow`
error value exists), and subtracting a larger value wraps as well (no
`Underflow` error value exists). -/
theorem c8_counterexample :
    Addr.add ⟨2 ^ 63⟩ ⟨2 ^ 63⟩ = ⟨0⟩ ∧ Addr.sub ⟨0⟩ ⟨1⟩ = ⟨2 ^ 64 - 1⟩ := by
  constructor
  · show Addr.mk ((2 ^ 63 + 2 ^ 63) % U64) = _
    norm_num [U64]
  · show Addr.mk ((0 + U64 - 1 % U64) % U64) = _
    norm_num [U64]

/-- C8, amended.  `Addr` addition and subtraction (the `binops!` impls in
`addr.rs`) are unchecked `u64` operations returning an `Addr` directly:
in release builds the in-range sum is exact, an overflowing sum wraps
by `2^64`, an in-range difference is exact, and an underflowing
difference wraps by `2^64`; no `Overflow`/`Underflow` error is ever
returned (a debug build would panic instead of wrapping). -/
theorem c8_theorem : ∀ a b : Addr, a.val < U64 → b.val < U64 →
    (a.val + b.val < U64 → (Addr.add a b).val = a.val + b.val)
    ∧ (U64 ≤ a.val + b.val → (Addr.add a b).val = a.val + b.val - U64)
    ∧ (b.val ≤ a.val → (Addr.sub a b).val = a.val - b.val)
    ∧ (a.val < b.val → (Addr.sub a b).val = U64 + a.val - b.val) := by
  intro a b ha hb
  have hU : 0 < U64 := by norm_num [U64]
  refine ⟨fun h => Nat.mod_eq_of_lt h, fun h => ?_, fun h => ?_, fun h => ?_⟩
  · show (a.val + b.val) % U64 = a.val + b.val - U64
    rw [Nat.mod_eq_sub_mod h, Nat.mod_eq_of_lt (by omega)]
  · show (a.val + U64 - b.val % U64) % U64 = a.val - b.val
    rw [Nat.mod_eq_of_lt hb, Nat.mod_eq_sub_mod (by omega), Nat.mod_eq_of_lt (by omega)]
    omega
  · show (a.val + U64 - b.val % U64) % U64 = U64 + a.val - b.val
    rw [Nat.mod_eq_of_lt hb, Nat.mod_eq_of_lt (by omega)]
    omega

/-- C8, witness: the amended behaviour at `5 - 3`. -/
theorem c8_witness :
    (⟨5⟩ : Addr).val < U64 ∧ (⟨3⟩ : Addr).val < U64 ∧ (3 : Nat) ≤ 5
      ∧ (Addr.sub ⟨5⟩ ⟨3⟩).val = 5 - 3 :=
  ⟨by norm_num [U64], by norm_num [U64], by norm_num,
    (c8_theorem ⟨5⟩ ⟨3⟩ (by norm_num [U64]) (by norm_num [U64])).2.2.1 (by norm_num)⟩

/-- C9, counterexample.  A one-step `DW_AT_abstract_origin` cycle makes
the `entry_symbol` cascade recurse forever: at every recursion depth
the run is still unfinished, so the cycle is never reported as
`AddrSymbolMissing` (nor anything else) — there is no upper depth
bound in the code. -/
theorem c9_counterexample : entrySymbolDiverges cycD 7 cycEntry cycUnit := by
  intro fuel
  induction fuel with
  | zero => rfl
  | succ n ih => exact ih

/-- C9, amended.  The name-attribute cascade recurses with no upper depth
bound: a cyclic `abstract_origin` chain never terminates (at every
depth the outcome is still the unfinished-run marker, never
`AddrSymbolMissing`), while on reference-free inputs the cascade
terminates in one step — a direct `DW_AT_name` string resolves, and a
DIE with no cascade attribute at all is what `AddrSymbolMissing`
actually reports. -/
theorem c9_theorem :
    (∀ fuel, entrySymbolF cycD 7 fuel cycEntry cycUnit = .error .noFuel)
    ∧ (∀ fuel (d : DwarfM) (a : Nat) (u : UnitM) (s : String),
        entrySymbolF d a (fuel + 1) (namedE s) u = .ok s)
    ∧ (∀ fuel (d : DwarfM) (a : Nat) (u : UnitM),
        entrySymbolF d a (fuel + 1) bareE u = .error (.AddrSymbolMissing a)) := by
  refine ⟨fun fuel => ?_, fun fuel d a u s => rfl, fun fuel d a u => rfl⟩
  induction fuel with
  | zero => rfl
  | succ n ih => exact ih

/-- C4, counterexample.  `entry_source_loc` scans
`[DW_AT_decl_file, DW_AT_call_file]` (and the matching line/column
lists) in that order, so on a DIE carrying both, the `decl_*`
attributes win — the opposite of the claimed preference; and an
artificial DIE that does carry a file attribute keeps that file (with
line and column zeroed) instead of emitting `<compiler-generated>`. -/
theorem c4_counterexample :
    entrySourceLoc declCallE "/src" unit4 = some ⟨"/src/decl.c", 7, 0⟩
    ∧ (some (⟨"/src/decl.c", 7, 0⟩ : SourceLoc)) ≠ (some (⟨"/src/call.c", 9, 0⟩ : SourceLoc))
    ∧ entrySourceLoc artFileE "/src" unit4 = some ⟨"/src/call.c", 0, 0⟩
    ∧ "/src/call.c" ≠ pathJoin "/src" "<compiler-generated>" := by
  refine ⟨by decide, by decide, by decide, by decide⟩

/-- C4, amended.  For every inlined-subroutine frame the source location
is taken from the DIE's `DW_AT_decl_file`/`DW_AT_decl_line` in
preference to the corresponding `DW_AT_call_*` attributes; the
`<compiler-generated>` location (comp-dir joined, line 0, column 0) is
emitted exactly when neither `DW_AT_decl_file` nor `DW_AT_call_file`
yields a file index; and `DW_AT_artificial = true` zeroes the line and
column while keeping the file resolved from the file attribute. -/
theorem c4_theorem :
    ∀ (e : Entry) (path dirStr : String) (u : UnitM) (i lv : Nat) (fe : FileEntry)
      (header : LineProgramHeader) (rows : List LineRow),
    (e.attr .declFile = none → e.attr .callFile = none →
      entrySourceLoc e path u = some ⟨pathJoin path "<compiler-generated>", 0, 0⟩)
    ∧ (e.attr .declFile = some (.fileIndex i) → u.lineProgram = some (header, rows) →
       header.files[i]? = some fe → fe.dir = some dirStr →
       ((e.attr .artificial = some (.flag true) →
          entrySourceLoc e path u = some ⟨pathJoin dirStr fe.pathName, 0, 0⟩)
        ∧ (e.attr .artificial ≠ some (.flag true) →
           e.attr .declLine = some (.udata lv) → lv < U16 →
           entrySourceLoc e path u =
             some ⟨pathJoin dirStr fe.pathName, lv,
                   (findMapU16 e [.declColumn, .callColumn]).getD 0⟩))) := by
  intro e path dirStr u i lv fe header rows
  constructor
  · intro h1 h2
    simp only [entrySourceLoc, findMapAttr, h1, h2]
  · intro h1 h2 h3 h4
    constructor
    · intro hart
      simp [entrySourceLoc, findMapAttr, h1, h2, h3, h4, hart]
    · intro hart hline hlt
      simp [entrySourceLoc, findMapAttr, findMapU16, AttrValue.u16Value,
        h1, h2, h3, h4, hline, hart, hlt]

/-- C4, witness: the amended decl-preference behaviour at the concrete
DIE carrying both attribute families. -/
theorem c4_witness :
    entrySourceLoc declCallE "/other" unit4 = some ⟨"/src/decl.c", 7, 0⟩ :=
  ((c4_theorem declCallE "/other" "/src" unit4 1 7 ⟨1, some "/src", "decl.c"⟩ hdr4 []).2
    rfl rfl rfl rfl).2 (by decide) rfl (by decide)

/-- C6, counterexample.  With the owning unit providing
`DW_AT_comp_dir = /src`, a line-program file entry at directory index 0
resolves to the bare relative name `a.c`: the comp-dir is never joined
by `line_row_file`, so the produced `SourceLoc.file` is not absolute. -/
theorem c6_counterexample :
    atosDwarf 4 scenD6 0x40 false
      = .ok [⟨0x40, "f", .symbolic (some ⟨"a.c", 3, 0⟩)⟩]
    ∧ unit6.compDir = some "/src"
    ∧ strStartsWith "a.c" "/" = false
    ∧ "a.c" ≠ pathJoin "/src" "a.c" := by
  refine ⟨rfl, by decide, by decide, by decide⟩

/-- C6, amended.  A line-program file entry whose `directory_index` is 0
is emitted as its bare path name: `line_row_file` joins an empty
directory (never the unit's comp-dir), so such a `SourceLoc.file` is
absolute only if the recorded path name itself is. -/
theorem c6_theorem :
    ∀ (row : LineRow) (header : LineProgramHeader) (fe : FileEntry),
    header.files.get? row.fileIdx = some fe → fe.dirIndex = 0 →
    lineRowFile row header = .ok fe.pathName := by
  intro row header fe h h0
  have hJ : pathJoin "" fe.pathName = fe.pathName := by
    unfold pathJoin
    split
    · rfl
    · rw [if_pos rfl]
  simp only [lineRowFile, h, h0]
  cases hd : fe.dir with
  | none => simpa using hJ
  | some dirStr => simpa using hJ

/-- C6, witness: the amended behaviour at the concrete directory-index-0
file entry. -/
theorem c6_witness :
    lineRowFile ⟨0x40, 1, some 3, .leftEdge⟩ hdr6 = .ok "a.c" :=
  c6_theorem ⟨0x40, 1, some 3, .leftEdge⟩ hdr6 ⟨0, none, "a.c"⟩ rfl rfl

/-- Auxiliary: the `u64 as i64` cast is the identity below `2^63`. -/
theorem toI64_of_lt {n : Nat} (h : n < 2 ^ 63) : toI64 n = (n : Int) := by
  unfold toI64 U64
  rw [if_pos (by omega)]
  omega

/-- Auxiliary: the code's per-address translation equals the spec-side
checked signed addition, for every offset. -/
theorem translateCode_eq (δ : Int) : translateCode δ = translateSpec δ := by
  funext a
  by_cases h : 0 ≤ (a : Int) + δ ∧ (a : Int) + δ < (U64 : Int)
  · simp only [translateCode, checkedAddSigned, translateSpec, if_pos h]
  · simp only [translateCode, checkedAddSigned, translateSpec, if_neg h]

/-- C7, counterexample.  The signed offset is built with a wrapping
`u64 as i64` cast: for a `__TEXT` vmaddr of `2^63` in `Offset` mode the
code's δ is `-2^63` rather than the claimed `+vmaddr`, so the observed
address `2^63` translates to `0x0` and succeeds, while the claimed
checked addition `observed + vmaddr = 2^64` overflows `u64` and would
have to fail with the invalid-address error. -/
theorem c7_counterexample :
    computeAddrs (2 ^ 63) .offset [2 ^ 63] = .ok [0]
    ∧ translateSpec (deltaSpec (2 ^ 63) .offset) (2 ^ 63)
        = .error ("Invalid address: " ++ addrDisplay (2 ^ 63))
    ∧ ((2 ^ 63 : Nat) : Int) + deltaSpec (2 ^ 63) .offset = (U64 : Int) := by
  refine ⟨rfl, ?_, by simp only [deltaSpec]; norm_num [U64]⟩
  unfold translateSpec
  rw [if_neg]
  simp only [deltaSpec]
  norm_num [U64]

/-- C7, amended.  With every magnitude representable in `i64` — that is,
`L - vmaddr < 2^63` for `LoadAddr(L)`, `s ≤ 2^63` for `Slide(s)`, and
`vmaddr < 2^63` for `Offset` — translation applies the claimed signed
offset δ (`-(L - vmaddr)`, `-s`, `+vmaddr` respectively) to every
observed address with checked signed addition, any overflow or
underflow surfacing as the invalid-address error; `LoadAddr(L)` with
`L < vmaddr` fails with the "Invalid load address" message before any
address is translated (the error does not depend on the address list).
Outside those magnitude bounds the `u64 as i64` cast wraps and δ
differs from the claimed value. -/
theorem c7_theorem :
    ∀ (vm : Nat) (addrs : List Nat),
    (∀ l, l < vm →
      computeAddrs vm (.load l) addrs = .error ("Invalid load address: " ++ addrDisplay l))
    ∧ (∀ l, vm ≤ l → l - vm < 2 ^ 63 →
        computeAddrs vm (.load l) addrs = addrs.mapM (translateSpec (deltaSpec vm (.load l))))
    ∧ (∀ s, s ≤ 2 ^ 63 →
        computeAddrs vm (.slide s) addrs = addrs.mapM (translateSpec (deltaSpec vm (.slide s))))
    ∧ (vm < 2 ^ 63 →
        computeAddrs vm .offset addrs = addrs.mapM (translateSpec (deltaSpec vm .offset))) := by
  intro vm addrs
  refine ⟨fun l hl => ?_, fun l hl hsm => ?_, fun s hs => ?_, fun hvm => ?_⟩
  · simp only [computeAddrs, offsetAddr, checkedSub]
    rw [if_neg (by omega)]
  · simp only [computeAddrs, offsetAddr, checkedSub]
    rw [if_pos hl]
    have ht : negWrapI64 (toI64 (l - vm)) = deltaSpec vm (.load l) := by
      rw [toI64_of_lt hsm]
      unfold negWrapI64
      rw [if_neg (by omega)]
      simp only [deltaSpec]
      omega
    simp only [ht, translateCode_eq]
  · simp only [computeAddrs, offsetAddr]
    have ht : negWrapI64 (toI64 s) = deltaSpec vm (.slide s) := by
      rcases Nat.lt_or_ge s (2 ^ 63) with h | h
      · rw [toI64_of_lt h]
        unfold negWrapI64
        rw [if_neg (by omega)]
        simp only [deltaSpec]
      · have hs' : s = 2 ^ 63 := by omega
        subst hs'
        have h1 : toI64 (2 ^ 63) = -(2 ^ 63) := by
          unfold toI64 U64
          norm_num
        rw [h1]
        unfold negWrapI64
        rw [if_pos rfl]
        simp only [deltaSpec]
        norm_num
    rw [ht, translateCode_eq]
  · simp only [computeAddrs, offsetAddr]
    have ht : toI64 vm = deltaSpec vm .offset := by
      rw [toI64_of_lt hvm]
      simp only [deltaSpec]
    rw [ht, translateCode_eq]

/-- C7, witness: the amended slide translation at the spec's scenario 3
(`-s 0x10000000` on observed `0x110001020`). -/
theorem c7_witness :
    (0x10000000 : Nat) ≤ 2 ^ 63
    ∧ computeAddrs 0x100000000 (.slide 0x10000000) [0x110001020]
        = [0x110001020].mapM (translateSpec (deltaSpec 0x100000000 (.slide 0x10000000)))
    ∧ computeAddrs 0x100000000 (.slide 0x10000000) [0x110001020] = .ok [0x100001020] :=
  ⟨by norm_num,
   (c7_theorem 0x100000000 [0x110001020]).2.2.1 0x10000000 (by norm_num),
   rfl⟩

/-- Auxiliary: the digit-fold only grows. -/
theorem hexFold_le (l : List Char) (a : Nat) :
    a ≤ l.foldl (fun acc c => acc * 16 + ((digitVal 16 c).getD 0)) a := by
  induction l generalizing a with
  | nil => exact Nat.le_refl a
  | cons c rest ih =>
    calc a ≤ a * 16 + (digitVal 16 c).getD 0 := by nlinarith
    _ ≤ _ := ih _

/-- Auxiliary: on valid hex digits, the checked digit loop of
`from_str_radix` computes the digit-fold, provided the final value fits
in a `u64`. -/
theorem parseU64Digits_hex (l : List Char) (a : Nat)
    (hdig : ∀ c ∈ l, (digitVal 16 c).isSome)
    (hlt : l.foldl (fun acc c => acc * 16 + ((digitVal 16 c).getD 0)) a < U64) :
    parseU64Digits 16 l a = some (l.foldl (fun acc c => acc * 16 + ((digitVal 16 c).getD 0)) a) := by
  induction l generalizing a with
  | nil => rfl
  | cons c rest ih =>
    have hc : (digitVal 16 c).isSome := hdig c (List.mem_cons_self c rest)
    obtain ⟨d, hd⟩ := Option.isSome_iff_exists.mp hc
    have hrest : ∀ x ∈ rest, (digitVal 16 x).isSome := fun x hx =>
      hdig x (List.mem_cons_of_mem c hx)
    have hfold :
        (c :: rest).foldl (fun acc x => acc * 16 + ((digitVal 16 x).getD 0)) a
          = rest.foldl (fun acc x => acc * 16 + ((digitVal 16 x).getD 0)) (a * 16 + d) := by
      simp [List.foldl_cons, hd]
    rw [hfold] at hlt ⊢
    have hv : a * 16 + d < U64 :=
      Nat.lt_of_le_of_lt (hexFold_le rest (a * 16 + d)) hlt
    simp only [parseU64Digits, hd, if_pos hv]
    exact ih (a * 16 + d) hrest hlt

/-- C10, counterexample.  A string of 17 ASCII hex digits that is not
valid decimal, whose base-16 value exceeds `u64`: `from_str` fails
(the hex parse rejects the overflow), contradicting the claim that
every non-decimal hex-digit string parses. -/
theorem c10_counterexample :
    Addr.fromStr "fffffffffffffffff" = none
    ∧ ("fffffffffffffffff".data.all fun c => (digitVal 16 c).isSome) = true
    ∧ parseU64 10 "fffffffffffffffff".data = none := by
  refine ⟨rfl, by decide, rfl⟩

/-- C10, amended.  Addr parsing accepts more than the documented formats:
every nonempty string of ASCII hexadecimal digits that is not a valid
decimal `u64` and whose base-16 value fits in a `u64` parses to that
value; a string with a leading `0x` prefix parses as the hex parse of
the remainder with all further `0x` prefixes stripped; and parsing
fails exactly when the string is accepted by neither the decimal `u64`
parser nor, after stripping the leading `0x` prefixes, the hex `u64`
parser. -/
theorem c10_theorem :
    (∀ s : String, s.data ≠ [] → (∀ c ∈ s.data, (digitVal 16 c).isSome) →
      parseU64 10 s.data = none → hexValue s.data < U64 →
      Addr.fromStr s = some ⟨hexValue s.data⟩)
    ∧ (∀ s : String, Addr.fromStr ("0x" ++ s) = (parseU64 16 (trim0x s.data)).map Addr.mk)
    ∧ (∀ s : String, Addr.fromStr s = none ↔
        parseU64 10 s.data = none ∧ parseU64 16 (trim0x s.data) = none) := by
  refine ⟨fun s hne hdig h10 hlt => ?_, fun s => ?_, fun s => ?_⟩
  · have hx : 'x' ∉ s.data := by
      intro hmem
      have := hdig 'x' hmem
      simp [digitVal] at this
    have htrim : trim0x s.data = s.data := by
      match hs : s.data with
      | [] => rfl
      | [c] => rfl
      | c1 :: c2 :: rest =>
        show (if c1 = '0' ∧ c2 = 'x' then trim0x rest else c1 :: c2 :: rest) = _
        rw [if_neg]
        rintro ⟨h0, hx2⟩
        apply hx
        rw [hs, hx2]
        exact List.mem_cons_of_mem _ (List.mem_cons_self _ _)
    have h16 : parseU64 16 s.data = some (hexValue s.data) := by
      have hmatch : (match s.data with
          | c :: rest => if c = '+' then rest else c :: rest
          | [] => ([] : List Char)) = s.data := by
        match hs : s.data with
        | [] => rfl
        | c :: rest =>
          show (if c = '+' then rest else c :: rest) = _
          rw [if_neg]
          intro hc
          have := hdig '+' (by rw [hs, hc]; exact List.mem_cons_self _ _)
          simp [digitVal] at this
      unfold parseU64
      rw [hmatch, if_neg hne]
      exact parseU64Digits_hex s.data 0 hdig hlt
    unfold Addr.fromStr
    rw [h10, htrim, h16]
    rfl
  · have hdata : ("0x" ++ s).data = '0' :: 'x' :: s.data := by
      simp [String.data_append]
    have h10 : parseU64 10 ("0x" ++ s).data = none := by
      rw [hdata]
      rfl
    have htrim : trim0x ("0x" ++ s).data = trim0x s.data := by
      rw [hdata]
      show (if '0' = '0' ∧ 'x' = 'x' then trim0x s.data else _) = trim0x s.data
      rw [if_pos ⟨rfl, rfl⟩]
    unfold Addr.fromStr
    rw [h10, htrim]
  · unfold Addr.fromStr
    cases h10 : parseU64 10 s.data with
    | some v => simp
    | none =>
      cases h16 : parseU64 16 (trim0x s.data) with
      | some v => simp [h16]
      | none => simp [h16]

/-- C10, witness: the amended hex fallback at `"ff"`. -/
theorem c10_witness :
    "ff".data ≠ [] ∧ parseU64 10 "ff".data = none ∧ hexValue "ff".data < U64
      ∧ Addr.fromStr "ff" = some ⟨hexValue "ff".data⟩ :=
  ⟨by decide, rfl, by decide,
   c10_theorem.1 "ff" (by decide) (by decide) rfl (by decide)⟩

/-- Auxiliary: once the file is cached, the row loop of `entry_debug_line`
returns the last of the already-pushed and still-matching locations,
each built with that one cached file. -/
theorem edlGo_some (addr : Nat) (header : LineProgramHeader) :
    ∀ (rows : List LineRow) (f : String) (locs : List SourceLoc),
    entryDebugLineGo addr header rows (some f) locs =
      match (locs ++ (rows.filter (rowMatches addr)).map (mkRowLoc f)).getLast? with
      | some l => .ok l
      | none => .error (.AddrLineInfoMissing addr) := by
  intro rows
  induction rows with
  | nil => intro f locs; simp [entryDebugLineGo]
  | cons r rest ih =>
    intro f locs
    by_cases h : r.address = addr
    · have hfc : (r :: rest).filter (rowMatches addr)
          = r :: rest.filter (rowMatches addr) := by
        simp [List.filter_cons, rowMatches, h]
      simp only [entryDebugLineGo, if_pos h, ih, hfc, List.map_cons]
      rw [← List.append_cons]
    · have hfc : (r :: rest).filter (rowMatches addr)
          = rest.filter (rowMatches addr) := by
        simp [List.filter_cons, rowMatches, h]
      simp only [entryDebugLineGo, if_neg h, ih, hfc]

/-- C5, counterexample.  Two rows at the same address with different
files: `entry_debug_line` returns the line and column of the last
matching row but the file of the *first* matching row (the file is
computed once and cached), so the result is not the `SourceLoc` of the
last matching row. -/
theorem c5_counterexample :
    entryDebugLine 7 hdr5 rows5 = .ok ⟨"/src/a.c", 2, 0⟩
    ∧ (rows5.filter (rowMatches 7)).getLast? = some ⟨7, 2, some 2, .leftEdge⟩
    ∧ lineRowFile ⟨7, 2, some 2, .leftEdge⟩ hdr5 = .ok "/src/b.c"
    ∧ mkRowLoc "/src/b.c" ⟨7, 2, some 2, .leftEdge⟩ = ⟨"/src/b.c", 2, 0⟩
    ∧ (⟨"/src/a.c", 2, 0⟩ : SourceLoc) ≠ ⟨"/src/b.c", 2, 0⟩ := by
  refine ⟨rfl, rfl, rfl, rfl, by decide⟩

/-- C5, amended.  The line-program scan returns a `SourceLoc` whose line
and column come from the last row whose address equals the lookup
address (`LeftEdge → 0`, `Column(n) → n` as a `u16`), but whose file is
resolved from the *first* such row (computed once and cached for all
pushed rows); with no matching row it fails with
`AddrLineInfoMissing(addr)`, and a failure resolving the first matching
row's file propagates. -/
theorem c5_theorem :
    ∀ (addr : Nat) (header : LineProgramHeader) (rows : List LineRow),
    (rows.filter (rowMatches addr) = [] →
      entryDebugLine addr header rows = .error (.AddrLineInfoMissing addr))
    ∧ (∀ r0 restM, rows.filter (rowMatches addr) = r0 :: restM →
        (∀ er, lineRowFile r0 header = .error er →
          entryDebugLine addr header rows = .error er)
        ∧ (∀ f, lineRowFile r0 header = .ok f →
            entryDebugLine addr header rows = .ok (mkRowLoc f (restM.getLast?.getD r0)))) := by
  intro addr header rows
  induction rows with
  | nil =>
    refine ⟨fun _ => rfl, fun r0 restM hfil => ?_⟩
    simp [List.filter_nil] at hfil
  | cons r rest ih =>
    by_cases h : r.address = addr
    · have hfc : (r :: rest).filter (rowMatches addr) = r :: rest.filter (rowMatches addr) := by
        simp [List.filter_cons, rowMatches, h]
      refine ⟨fun hnil => ?_, fun r0 restM hfil => ?_⟩
      · rw [hfc] at hnil
        cases hnil
      · rw [hfc] at hfil
        injection hfil with h1 h2
        subst h1
        subst h2
        constructor
        · intro er her
          show entryDebugLineGo addr header (r :: rest) none [] = .error er
          simp only [entryDebugLineGo, if_pos h, her]
        · intro f hf
          show entryDebugLineGo addr header (r :: rest) none [] = _
          simp only [entryDebugLineGo, if_pos h, hf]
          rw [edlGo_some]
          simp only [List.nil_append, List.singleton_append]
          rw [List.getLast?_cons, List.getLast?_map]
          cases hlast : (rest.filter (rowMatches addr)).getLast? with
          | none => simp [hlast]
          | some rl => simp [hlast]
    · have hfc : (r :: rest).filter (rowMatches addr) = rest.filter (rowMatches addr) := by
        simp [List.filter_cons, rowMatches, h]
      have hgo : entryDebugLine addr header (r :: rest) = entryDebugLine addr header rest := by
        show entryDebugLineGo addr header (r :: rest) none [] = _
        simp only [entryDebugLineGo, if_neg h]
        rfl
      refine ⟨fun hnil => ?_, fun r0 restM hfil => ?_⟩
      · rw [hgo]
        exact ih.1 (by rw [← hfc]; exact hnil)
      · rw [hfc] at hfil
        obtain ⟨h1, h2⟩ := ih.2 r0 restM hfil
        exact ⟨fun er her => by rw [hgo]; exact h1 er her,
               fun f hf => by rw [hgo]; exact h2 f hf⟩

/-- C5, witness: the amended behaviour at the two-row instance — line and
column from the last matching row, file from the first. -/
theorem c5_witness :
    rows5.filter (rowMatches 7) = ⟨7, 1, some 1, .column 4⟩ :: [⟨7, 2, some 2, .leftEdge⟩]
    ∧ lineRowFile ⟨7, 1, some 1, .column 4⟩ hdr5 = .ok "/src/a.c"
    ∧ entryDebugLine 7 hdr5 rows5
        = .ok (mkRowLoc "/src/a.c" ([⟨7, 2, some 2, .leftEdge⟩].getLast?.getD
            ⟨7, 1, some 1, .column 4⟩)) :=
  ⟨rfl, rfl,
   ((c5_theorem 7 hdr5 rows5).2 ⟨7, 1, some 1, .column 4⟩ [⟨7, 2, some 2, .leftEdge⟩] rfl).2
     "/src/a.c" rfl⟩

/-- Auxiliary: a successful run of the inline loop prepends, to the
incoming accumulator, one symbol per matched inlined DIE; each prepended
symbol is named after the DIE matched just before it (the subprogram
for the first), and the returned `last_child` is the last matched DIE
(the incoming parent when none matched). -/
theorem inlineLoop_spec (d : DwarfM) (addr fuel : Nat) (compDir : String) (u : UnitM) :
    ∀ (rest : List (Int × Entry)) (depth : Int) (parent : Entry) (syms : List Symbol)
      (lc : Entry) (syms' : List Symbol),
    inlineLoop d addr fuel compDir u rest depth parent syms = .ok (lc, syms') →
    ∃ pre, syms' = pre ++ syms ∧
      ((pre = [] ∧ lc = parent) ∨
       (∃ matched',
         (∀ e ∈ matched' ++ [lc],
           e.tag = .inlinedSubroutine ∧ entryContains d e addr = true) ∧
         List.Forall₂ (framePaired fuel d addr u) (parent :: matched') pre.reverse)) := by
  intro rest
  induction rest with
  | nil =>
    intro depth parent syms lc syms' h
    simp only [inlineLoop] at h
    injection h with h'
    injection h' with ha hb
    subst ha
    subst hb
    exact ⟨[], by simp, Or.inl ⟨rfl, rfl⟩⟩
  | cons sc rest ih =>
    intro depth parent syms lc syms' h
    obtain ⟨step, child⟩ := sc
    simp only [inlineLoop] at h
    split at h
    · injection h with h'
      injection h' with ha hb
      subst ha
      subst hb
      exact ⟨[], by simp, Or.inl ⟨rfl, rfl⟩⟩
    · split at h
      · rename_i hcond
        cases hsym : entrySymbolF d addr fuel parent u with
        | error er => rw [hsym] at h; cases h
        | ok s =>
          rw [hsym] at h
          obtain ⟨pre', hpre', hcase⟩ := ih _ _ _ _ _ h
          refine ⟨pre' ++ [⟨addr, demangle s, .symbolic (entrySourceLoc child compDir u)⟩],
            by simp [hpre'], ?_⟩
          rcases hcase with ⟨hpre0, hlc⟩ | ⟨matched'', hmem, hf2⟩
          · subst hpre0
            subst hlc
            refine Or.inr ⟨[], ?_, ?_⟩
            · intro e he
              simp only [List.nil_append, List.mem_singleton] at he
              subst he
              exact hcond
            · simp only [List.nil_append, List.reverse_cons, List.reverse_nil]
              exact List.Forall₂.cons ⟨rfl, s, hsym, rfl⟩ List.Forall₂.nil
          · refine Or.inr ⟨child :: matched'', ?_, ?_⟩
            · intro e he
              simp only [List.cons_append, List.mem_cons] at he
              rcases he with he1 | he2
              · subst he1
                exact hcond
              · exact hmem e he2
            · simp only [List.reverse_append, List.reverse_cons, List.reverse_nil,
                List.nil_append, List.singleton_append]
              exact List.Forall₂.cons ⟨rfl, s, hsym, rfl⟩ hf2
      · obtain ⟨pre', hpre', hcase⟩ := ih _ _ _ _ _ h
        exact ⟨pre', hpre', hcase⟩

/-- Auxiliary: the subprogram returned by the DFS search has tag
`DW_TAG_subprogram` and contains the address. -/
theorem findSubprogram_ok (d : DwarfM) (addr : Nat) :
    ∀ (l : List (Int × Entry)) (sub : Entry) (rest : List (Int × Entry)),
    findSubprogram d addr l = .ok (sub, rest) →
    sub.tag = .subprogram ∧ entryContains d sub addr = true := by
  intro l
  induction l with
  | nil => intro sub rest h; cases h
  | cons p l ih =>
    intro sub rest h
    obtain ⟨step, e⟩ := p
    simp only [findSubprogram] at h
    split at h
    · rename_i hcond
      injection h with h'
      injection h' with ha hb
      subst ha
      exact hcond
    · exact ih _ _ h

/-- C2.  Every successful DWARF resolution with inlining yields a
non-empty list of symbols: there is a chain of matched inlined DIEs
(each tagged `DW_TAG_inlined_subroutine` and containing the address)
below the DFS-found enclosing `DW_TAG_subprogram` (which contains the
address), and the output pairs, innermost frame first, with the
reversal of subprogram-then-chain — so the final symbol is named from
the enclosing subprogram DIE.  Without inlining, a successful
resolution yields exactly one symbol. -/
theorem c2_theorem :
    ∀ (fuel : Nat) (d : DwarfM) (addr : Nat),
    (∀ syms, atosDwarf fuel d addr true = .ok syms →
      syms ≠ [] ∧
      ∃ u sub rest matched,
        unitFromAddr d addr = .ok u ∧
        findSubprogram d addr u.dies = .ok (sub, rest) ∧
        sub.tag = .subprogram ∧ entryContains d sub addr = true ∧
        (∀ e ∈ matched, e.tag = .inlinedSubroutine ∧ entryContains d e addr = true) ∧
        List.Forall₂ (framePaired fuel d addr u) ((sub :: matched).reverse) syms) ∧
    (∀ syms, atosDwarf fuel d addr false = .ok syms → syms.length = 1) := by
  intro fuel d addr
  constructor
  · intro syms h
    unfold atosDwarf at h
    cases hu : unitFromAddr d addr with
    | error er => rw [hu] at h; cases h
    | ok u =>
      rw [hu] at h
      dsimp only at h
      cases hcd : u.compDir with
      | none => rw [hcd] at h; cases h
      | some compDir =>
        rw [hcd] at h
        dsimp only at h
        cases hlp : u.lineProgram with
        | none => rw [hlp] at h; cases h
        | some lp =>
          obtain ⟨header, rows⟩ := lp
          rw [hlp] at h
          dsimp only at h
          cases hfs : findSubprogram d addr u.dies with
          | error er => rw [hfs] at h; cases h
          | ok pr =>
            obtain ⟨sub, rest⟩ := pr
            rw [hfs] at h
            dsimp only at h
            obtain ⟨htag, hcont⟩ := findSubprogram_ok d addr u.dies sub rest hfs
            by_cases hch : true = true ∧ sub.hasChildren = true
            · rw [if_pos hch] at h
              cases hloop : inlineLoop d addr fuel compDir u rest 0 sub [] with
              | error er => rw [hloop] at h; cases h
              | ok pr2 =>
                obtain ⟨lastChild, syms0⟩ := pr2
                rw [hloop] at h
                dsimp only at h
                cases hsf : entrySymbolF d addr fuel lastChild u with
                | error er => rw [hsf] at h; cases h
                | ok s =>
                  rw [hsf] at h
                  dsimp only at h
                  cases hdl : entryDebugLine addr header rows with
                  | error er => rw [hdl] at h; cases h
                  | ok l =>
                    rw [hdl] at h
                    dsimp only at h
                    injection h with h'
                    obtain ⟨pre, hpre, hcase⟩ :=
                      inlineLoop_spec d addr fuel compDir u rest 0 sub [] lastChild syms0 hloop
                    rw [List.append_nil] at hpre
                    subst hpre
                    rcases hcase with ⟨hpre0, hlc⟩ | ⟨matched'', hmem, hf2⟩
                    · subst hpre0
                      rw [hlc] at hsf
                      refine ⟨by rw [← h']; simp, u, sub, rest, [], rfl, hfs, htag,
                        hcont, by simp, ?_⟩
                      rw [← h']
                      simp only [List.reverse_cons, List.reverse_nil, List.nil_append]
                      exact List.Forall₂.cons ⟨rfl, s, hsf, rfl⟩ List.Forall₂.nil
                    · refine ⟨by rw [← h']; simp, u, sub, rest, matched'' ++ [lastChild],
                        rfl, hfs, htag, hcont, fun e he => hmem e he, ?_⟩
                      rw [← h']
                      have hrev : (sub :: (matched'' ++ [lastChild])).reverse
                          = lastChild :: (sub :: matched'').reverse := by
                        simp
                      rw [hrev]
                      refine List.Forall₂.cons ⟨rfl, s, hsf, rfl⟩ ?_
                      have h2 := List.forall₂_reverse_iff.mpr hf2
                      simpa using h2
            · rw [if_neg hch] at h
              cases hsf : entrySymbolF d addr fuel sub u with
              | error er => rw [hsf] at h; cases h
              | ok s =>
                rw [hsf] at h
                dsimp only at h
                cases hdl : entryDebugLine addr header rows with
                | error er => rw [hdl] at h; cases h
                | ok l =>
                  rw [hdl] at h
                  dsimp only at h
                  injection h with h'
                  refine ⟨by rw [← h']; simp, u, sub, rest, [], rfl, hfs, htag,
                    hcont, by simp, ?_⟩
                  rw [← h']
                  simp only [List.reverse_cons, List.reverse_nil, List.nil_append]
                  exact List.Forall₂.cons ⟨rfl, s, hsf, rfl⟩ List.Forall₂.nil
  · intro syms h
    unfold atosDwarf at h
    cases hu : unitFromAddr d addr with
    | error er => rw [hu] at h; cases h
    | ok u =>
      rw [hu] at h
      dsimp only at h
      cases hcd : u.compDir with
      | none => rw [hcd] at h; cases h
      | some compDir =>
        rw [hcd] at h
        dsimp only at h
        cases hlp : u.lineProgram with
        | none => rw [hlp] at h; cases h
        | some lp =>
          obtain ⟨header, rows⟩ := lp
          rw [hlp] at h
          dsimp only at h
          cases hfs : findSubprogram d addr u.dies with
          | error er => rw [hfs] at h; cases h
          | ok pr =>
            obtain ⟨sub, rest⟩ := pr
            rw [hfs] at h
            dsimp only at h
            rw [if_neg (by simp)] at h
            cases hsf : entrySymbolF d addr fuel sub u with
            | error er => rw [hsf] at h; cases h
            | ok s =>
              rw [hsf] at h
              cases hdl : entryDebugLine addr header rows with
              | error er => rw [hdl] at h; cases h
              | ok l =>
                rw [hdl] at h
                injection h with h'
                rw [← h']
                rfl

/-- C2, witness: the invariant at the inline-expansion scenario. -/
theorem c2_witness :
    scenSyms ≠ [] ∧
    ∃ u sub rest matched,
      unitFromAddr scenD 0x100001020 = .ok u ∧
      findSubprogram scenD 0x100001020 u.dies = .ok (sub, rest) ∧
      sub.tag = .subprogram ∧ entryContains scenD sub 0x100001020 = true ∧
      (∀ e ∈ matched, e.tag = .inlinedSubroutine ∧ entryContains scenD e 0x100001020 = true) ∧
      List.Forall₂ (framePaired 16 scenD 0x100001020 u) ((sub :: matched).reverse) scenSyms :=
  (c2_theorem 16 scenD 0x100001020).1 scenSyms rfl

/-- Auxiliary: the arange-entry scan only fails with decoder errors. -/
theorem arangeAny_error (addr : Nat) :
    ∀ (l : List (Nat × Nat)) (er : Error), arangeAny addr l = .error er → er = .Gimli := by
  intro l
  induction l with
  | nil => intro er h; cases h
  | cons e t ih =>
    intro er h
    simp only [arangeAny] at h
    split at h
    · rename_i er2 heq
      injection h with h'
      subst h'
      unfold arangeContains at heq
      split at heq
      · cases heq
      · injection heq with h2
        exact h2.symm
    · cases h
    · exact ih _ h

/-- Auxiliary: the arange-header scan fails with
`AddrDebugInfoOffsetMissing(addr)` or a decoder error. -/
theorem debugInfoOffsetGo_error (addr : Nat) :
    ∀ (l : List ArangeHeader) (er : Error), debugInfoOffsetGo addr l = .error er →
    er = .AddrDebugInfoOffsetMissing addr ∨ er = .Gimli := by
  intro l
  induction l with
  | nil =>
    intro er h
    injection h with h'
    exact Or.inl h'.symm
  | cons hd t ih =>
    intro er h
    simp only [debugInfoOffsetGo] at h
    split at h
    · rename_i er2 ha
      injection h with h'
      subst h'
      exact Or.inr (arangeAny_error addr hd.entries er2 ha)
    · cases h
    · exact ih _ h

/-- Auxiliary: `unit_from_addr` fails with
`AddrDebugInfoOffsetMissing(addr)` or a decoder error. -/
theorem unitFromAddr_error (d : DwarfM) (addr : Nat) (er : Error) :
    unitFromAddr d addr = .error er →
    er = .AddrDebugInfoOffsetMissing addr ∨ er = .Gimli := by
  intro h
  unfold unitFromAddr at h
  split at h
  · rename_i er2 hgo
    injection h with h'
    subst h'
    exact debugInfoOffsetGo_error addr d.aranges er2 hgo
  · split at h
    · cases h
    · injection h with h'
      exact Or.inr h'.symm

/-- Auxiliary: the header scan of `unit_from_offset` only fails with
`AddrDebugInfoRefOffsetNofFound(addr)`. -/
theorem unitFromOffsetGo_error (a off : Nat) :
    ∀ (l : List UnitM) (er : Error),
    unitFromOffsetGo a off l = .error er → er = .AddrDebugInfoRefOffsetNofFound a := by
  intro l
  induction l with
  | nil =>
    intro er h
    injection h with h'
    exact h'.symm
  | cons u t ih =>
    intro er h
    cases t with
    | nil =>
      simp only [unitFromOffsetGo] at h
      split at h
      · cases h
      · injection h with h'
        exact h'.symm
    | cons v t2 =>
      simp only [unitFromOffsetGo] at h
      split at h
      · cases h
      · exact ih _ h

/-- Auxiliary: the name cascade only fails with the unfinished-run marker,
`AddrSymbolMissing(a)`, a decoder error, or the two cross-unit
reference errors at `a` — never `AddrNotFound` or
`AddrDebugInfoOffsetMissing`. -/
theorem entrySymbolF_error (d : DwarfM) (a : Nat) :
    ∀ (fuel : Nat) (e : Entry) (u : UnitM) (er : Error),
    entrySymbolF d a fuel e u = .error er →
    er = .noFuel ∨ er = .AddrSymbolMissing a ∨ er = .Gimli
      ∨ er = .AddrDebugInfoRefOffsetOutOfBounds a
      ∨ er = .AddrDebugInfoRefOffsetNofFound a := by
  intro fuel
  induction fuel with
  | zero =>
    intro e u er h
    injection h with h'
    exact Or.inl h'.symm
  | succ n ih =>
    intro e u er h
    simp only [entrySymbolF] at h
    split at h
    · injection h with h'
      exact Or.inr (Or.inl h'.symm)
    · split at h
      · injection h with h'
        exact Or.inr (Or.inr (Or.inl h'.symm))
      · exact ih _ _ _ h
    · split at h
      · rename_i er2 huo
        injection h with h'
        subst h'
        exact Or.inr (Or.inr (Or.inr (Or.inr
          (unitFromOffsetGo_error a _ d.units er2 huo))))
      · split at h
        · injection h with h'
          exact Or.inr (Or.inr (Or.inr (Or.inl h'.symm)))
        · split at h
          · injection h with h'
            exact Or.inr (Or.inr (Or.inl h'.symm))
          · exact ih _ _ _ h
    · cases h
    · injection h with h'
      exact Or.inr (Or.inr (Or.inl h'.symm))

/-- Auxiliary: `line_row_file` only fails with `AddrFileInfoMissing`. -/
theorem lineRowFile_error (r : LineRow) (header : LineProgramHeader) (er : Error) :
    lineRowFile r header = .error er → er = .AddrFileInfoMissing r.address := by
  intro h
  unfold lineRowFile at h
  split at h
  · injection h with h'
    exact h'.symm
  · cases h

/-- Auxiliary: the row loop only fails with `AddrLineInfoMissing(addr)` or
an `AddrFileInfoMissing`. -/
theorem edlGo_error (addr : Nat) (header : LineProgramHeader) :
    ∀ (rows : List LineRow) (facc : Option String) (locs : List SourceLoc) (er : Error),
    entryDebugLineGo addr header rows facc locs = .error er →
    er = .AddrLineInfoMissing addr ∨ ∃ x, er = .AddrFileInfoMissing x := by
  intro rows
  induction rows with
  | nil =>
    intro facc locs er h
    simp only [entryDebugLineGo] at h
    split at h
    · cases h
    · injection h with h'
      exact Or.inl h'.symm
  | cons r rest ih =>
    intro facc locs er h
    simp only [entryDebugLineGo] at h
    split at h
    · split at h
      · exact ih _ _ _ h
      · split at h
        · rename_i er2 hlf
          injection h with h'
          subst h'
          exact Or.inr ⟨r.address, lineRowFile_error r header er2 hlf⟩
        · exact ih _ _ _ h
    · exact ih _ _ _ h

/-- Auxiliary: the DFS search only fails with `AddrNotFound(addr)`. -/
theorem findSubprogram_error (d : DwarfM) (addr : Nat) :
    ∀ (l : List (Int × Entry)) (er : Error),
    findSubprogram d addr l = .error er → er = .AddrNotFound addr := by
  intro l
  induction l with
  | nil =>
    intro er h
    injection h with h'
    exact h'.symm
  | cons p t ih =>
    intro er h
    obtain ⟨step, e⟩ := p
    simp only [findSubprogram] at h
    split at h
    · cases h
    · exact ih _ h

/-- Auxiliary: the inline loop only fails with the errors of the name
cascade. -/
theorem inlineLoop_error (d : DwarfM) (addr fuel : Nat) (compDir : String) (u : UnitM) :
    ∀ (rest : List (Int × Entry)) (depth : Int) (parent : Entry) (syms : List Symbol)
      (er : Error),
    inlineLoop d addr fuel compDir u rest depth parent syms = .error er →
    er = .noFuel ∨ er = .AddrSymbolMissing addr ∨ er = .Gimli
      ∨ er = .AddrDebugInfoRefOffsetOutOfBounds addr
      ∨ er = .AddrDebugInfoRefOffsetNofFound addr := by
  intro rest
  induction rest with
  | nil => intro depth parent syms er h; cases h
  | cons sc t ih =>
    intro depth parent syms er h
    obtain ⟨step, child⟩ := sc
    simp only [inlineLoop] at h
    split at h
    · cases h
    · split at h
      · split at h
        · rename_i er2 hsym
          injection h with h'
          subst h'
          exact entrySymbolF_error d addr fuel parent u er2 hsym
        · exact ih _ _ _ _ h
      · exact ih _ _ _ _ h

/-- Auxiliary: classification of `atos_dwarf` failures — the
`AddrNotFound` and `AddrDebugInfoOffsetMissing` errors always carry the
input address, and no other failure uses those constructors. -/
theorem atosDwarf_error_shape (fuel : Nat) (d : DwarfM) (addr : Nat) (b : Bool) (er : Error) :
    atosDwarf fuel d addr b = .error er →
    er = .AddrNotFound addr ∨ er = .AddrDebugInfoOffsetMissing addr ∨
      ((∀ x, er ≠ .AddrNotFound x) ∧ (∀ x, er ≠ .AddrDebugInfoOffsetMissing x)) := by
  intro h
  unfold atosDwarf at h
  cases hu : unitFromAddr d addr with
  | error er2 =>
    rw [hu] at h
    injection h with h'
    subst h'
    rcases unitFromAddr_error d addr er2 hu with h1 | h1
    · exact Or.inr (Or.inl h1)
    · subst h1
      exact Or.inr (Or.inr ⟨nofun, nofun⟩)
  | ok u =>
    rw [hu] at h
    dsimp only at h
    cases hcd : u.compDir with
    | none =>
      rw [hcd] at h
      injection h with h'
      subst h'
      exact Or.inr (Or.inr ⟨nofun, nofun⟩)
    | some compDir =>
      rw [hcd] at h
      dsimp only at h
      cases hlp : u.lineProgram with
      | none =>
        rw [hlp] at h
        injection h with h'
        subst h'
        exact Or.inr (Or.inr ⟨nofun, nofun⟩)
      | some lp =>
        obtain ⟨header, rows⟩ := lp
        rw [hlp] at h
        dsimp only at h
        cases hfs : findSubprogram d addr u.dies with
        | error er2 =>
          rw [hfs] at h
          injection h with h'
          subst h'
          exact Or.inl (findSubprogram_error d addr u.dies er2 hfs)
        | ok pr =>
          obtain ⟨sub, rest⟩ := pr
          rw [hfs] at h
          dsimp only at h
          have hother :
              ∀ er2 : Error,
                er2 = .noFuel ∨ er2 = .AddrSymbolMissing addr ∨ er2 = .Gimli
                  ∨ er2 = .AddrDebugInfoRefOffsetOutOfBounds addr
                  ∨ er2 = .AddrDebugInfoRefOffsetNofFound addr →
                (∀ x, er2 ≠ .AddrNotFound x) ∧ (∀ x, er2 ≠ .AddrDebugInfoOffsetMissing x) := by
            intro er2 hsh
            rcases hsh with h1 | h1 | h1 | h1 | h1 <;> subst h1 <;> exact ⟨nofun, nofun⟩
          have hline :
              ∀ er2 : Error,
                er2 = .AddrLineInfoMissing addr ∨ (∃ x, er2 = .AddrFileInfoMissing x) →
                (∀ x, er2 ≠ .AddrNotFound x) ∧ (∀ x, er2 ≠ .AddrDebugInfoOffsetMissing x) := by
            intro er2 hsh
            rcases hsh with h1 | ⟨x, h1⟩ <;> subst h1 <;> exact ⟨nofun, nofun⟩
          split at h
          · cases hloop : inlineLoop d addr fuel compDir u rest 0 sub [] with
            | error er2 =>
              rw [hloop] at h
              injection h with h'
              subst h'
              exact Or.inr (Or.inr (hother er2
                (inlineLoop_error d addr fuel compDir u rest 0 sub [] er2 hloop)))
            | ok pr2 =>
              obtain ⟨lastChild, syms0⟩ := pr2
              rw [hloop] at h
              dsimp only at h
              cases hsf : entrySymbolF d addr fuel lastChild u with
              | error er2 =>
                rw [hsf] at h
                injection h with h'
                subst h'
                exact Or.inr (Or.inr (hother er2
                  (entrySymbolF_error d addr fuel lastChild u er2 hsf)))
              | ok s =>
                rw [hsf] at h
                dsimp only at h
                cases hdl : entryDebugLine addr header rows with
                | error er2 =>
                  rw [hdl] at h
                  injection h with h'
                  subst h'
                  exact Or.inr (Or.inr (hline er2
                    (edlGo_error addr header rows none [] er2 hdl)))
                | ok l =>
                  rw [hdl] at h
                  dsimp only at h
                  cases h
          · cases hsf : entrySymbolF d addr fuel sub u with
            | error er2 =>
              rw [hsf] at h
              injection h with h'
              subst h'
              exact Or.inr (Or.inr (hother er2
                (entrySymbolF_error d addr fuel sub u er2 hsf)))
            | ok s =>
              rw [hsf] at h
              dsimp only at h
              cases hdl : entryDebugLine addr header rows with
              | error er2 =>
                rw [hdl] at h
                injection h with h'
                subst h'
                exact Or.inr (Or.inr (hline er2
                  (edlGo_error addr header rows none [] er2 hdl)))
              | ok l =>
                rw [hdl] at h
                dsimp only at h
                cases h

/-- Auxiliary: the hex display is always exactly 18 characters
(`0x` + 16 digits) — it carries no error text. -/
theorem addrDisplay_length (n : Nat) : (addrDisplay n).length = 18 := by
  simp [addrDisplay, String.length_append]
  rfl

/-- Auxiliary: joining a single formatted symbol with newlines is the
symbol itself. -/
theorem intercalate_singleton (x : String) : String.intercalate "\n" [x] = x := by
  simp [String.intercalate, String.intercalate.go]

/-- Auxiliary: length of an interspersed list. -/
theorem length_intersperse (sep : String) :
    ∀ l : List String, (l.intersperse sep).length = 2 * l.length - 1
  | [] => rfl
  | [a] => rfl
  | a :: b :: t => by
    have ih := length_intersperse sep (b :: t)
    simp only [List.intersperse, List.length_cons] at ih ⊢
    omega

/-- C3.  The dispatcher recovers exactly from `AddrNotFound` and
`AddrDebugInfoOffsetMissing` (whose payload is always the translated
input address) by running the symbol-map fallback on that address: a
fallback hit prints the one formatted fallback symbol; a fallback miss
prints exactly the 18-character hex of the translated address with no
error text; any other resolver error is printed verbatim as that
address's line; and every input address contributes its own line
independently (with inlining, delimiters between addresses plus one
trailing delimiter). -/
theorem c3_theorem :
    ∀ (fuel : Nat) (d : DwarfM) (obj : List (Nat × String)) (ctx : Ctx) (addr : Nat),
    (∀ a, (atosDwarf fuel d addr ctx.includeInlined = .error (.AddrNotFound a) ∨
           atosDwarf fuel d addr ctx.includeInlined = .error (.AddrDebugInfoOffsetMissing a)) →
       a = addr ∧
       (symbolMapGet obj a = none →
         perAddrLine fuel d obj ctx addr = addrDisplay a ∧ (addrDisplay a).length = 18) ∧
       (∀ sa sn, symbolMapGet obj a = some (sa, sn) →
         perAddrLine fuel d obj ctx addr
           = formatSymbol ctx ⟨sa, demangle sn, .objectOffset (a - sa)⟩))
    ∧ (∀ er, atosDwarf fuel d addr ctx.includeInlined = .error er →
        (∀ x, er ≠ .AddrNotFound x) → (∀ x, er ≠ .AddrDebugInfoOffsetMissing x) →
        perAddrLine fuel d obj ctx addr = errMessage er)
    ∧ (∀ addrs : List Nat,
        (symbolicateM fuel d obj ctx addrs).length
          = if ctx.includeInlined = true then (if addrs = [] then 1 else 2 * addrs.length)
            else addrs.length) := by
  intro fuel d obj ctx addr
  refine ⟨fun a ha => ?_, fun er her hna hnd => ?_, fun addrs => ?_⟩
  · have hpay : a = addr := by
      rcases ha with h | h <;>
        rcases atosDwarf_error_shape fuel d addr ctx.includeInlined _ h with
          h1 | h1 | ⟨h1, h2⟩
      · injection h1 with h1'
      · cases h1
      · exact absurd rfl (h1 a)
      · cases h1
      · injection h1 with h1'
      · exact absurd rfl (h2 a)
    have hres : perAddrResult fuel d obj addr ctx.includeInlined = atosObj obj a := by
      unfold perAddrResult
      rcases ha with h | h <;> rw [h]
    refine ⟨hpay, fun hm => ?_, fun sa sn hm => ?_⟩
    · have hobj : atosObj obj a = .error (.AddrNotFound a) := by
        unfold atosObj
        rw [hm]
      unfold perAddrLine
      rw [hres, hobj]
      exact ⟨rfl, addrDisplay_length a⟩
    · have hobj : atosObj obj a
          = .ok [⟨sa, demangle sn, .objectOffset (a - sa)⟩] := by
        unfold atosObj
        rw [hm]
      unfold perAddrLine
      rw [hres, hobj]
      simp only [List.map_cons, List.map_nil]
      exact intercalate_singleton _
  · have hres : perAddrResult fuel d obj addr ctx.includeInlined = .error er := by
      unfold perAddrResult
      rw [her]
      cases er with
      | AddrNotFound x => exact absurd rfl (hna x)
      | AddrDebugInfoOffsetMissing x => exact absurd rfl (hnd x)
      | AddrSymbolMissing x => rfl
      | AddrLineInfoMissing x => rfl
      | AddrFileInfoMissing x => rfl
      | AddrDebugInfoRefOffsetOutOfBounds x => rfl
      | AddrDebugInfoRefOffsetNofFound x => rfl
      | CompUnitDirMissing x => rfl
      | CompUnitLineProgramMissing x => rfl
      | Gimli => rfl
      | noFuel => rfl
    unfold perAddrLine
    rw [hres]
    cases er with
    | AddrNotFound x => exact absurd rfl (hna x)
    | AddrDebugInfoOffsetMissing x => rfl
    | AddrSymbolMissing x => rfl
    | AddrLineInfoMissing x => rfl
    | AddrFileInfoMissing x => rfl
    | AddrDebugInfoRefOffsetOutOfBounds x => rfl
    | AddrDebugInfoRefOffsetNofFound x => rfl
    | CompUnitDirMissing x => rfl
    | CompUnitLineProgramMissing x => rfl
    | Gimli => rfl
    | noFuel => rfl
  · simp only [symbolicateM]
    by_cases hinc : ctx.includeInlined = true
    · rw [if_pos hinc, if_pos hinc]
      cases addrs with
      | nil => rfl
      | cons a t =>
        rw [if_neg (List.cons_ne_nil a t)]
        simp only [List.length_append, List.length_cons, List.length_nil,
          length_intersperse, List.length_map]
        omega
    · rw [if_neg hinc, if_neg hinc]
      exact List.length_map _ _

/-- C3, witness: the dispatcher behaviour at an address no arange covers,
with an empty symbol map (double miss prints the bare hex). -/
theorem c3_witness :
    (5 : Nat) = 5 ∧
    (symbolMapGet [] 5 = none →
      perAddrLine 4 dEmpty [] ctxN 5 = addrDisplay 5 ∧ (addrDisplay 5).length = 18) ∧
    (∀ sa sn, symbolMapGet [] 5 = some (sa, sn) →
      perAddrLine 4 dEmpty [] ctxN 5
        = formatSymbol ctxN ⟨sa, demangle sn, .objectOffset (5 - sa)⟩) :=
  (c3_theorem 4 dEmpty [] ctxN 5).1 5 (Or.inr rfl)

end Ators



